import Mathlib

/-!
Verification of the OpenAPI validator / JSON converter
(`api/docs/validate_openapi.py`).

The document tree produced by the YAML loader is modelled as the inductive
type `Doc` (mappings with string keys in insertion order, sequences, and
scalars).  Python's dynamically-typed operations on that tree (`in`,
indexing, `.keys()`, `.items()`, iteration, `.startswith`) are modelled as
functions into `Except PyErr _`, so that the places where the script can
raise `TypeError` / `AttributeError` / `KeyError` are explicit.
-/

namespace OpenApiDocs

/-- In-memory document tree: mappings (string keys, insertion order),
sequences, and scalars (string / integer / boolean / null). This is the
float-free fragment of the data model — float scalars, inert for the
validation and counting claims, are added by `DocF` below for the
round-trip claim, which they refute. -/
inductive Doc where
  | str  : String → Doc
  | int  : Int → Doc
  | bool : Bool → Doc
  | null : Doc
  | arr  : List Doc → Doc
  | obj  : List (String × Doc) → Doc

/-- The Python exceptions the script can raise while walking the tree. -/
inductive PyErr where
  | typeError
  | attributeError
  | keyError
  deriving DecidableEq, Repr

/-- `listStarts p l` : the char list `p` is an initial segment of `l`
(Python `str.startswith`). -/
def listStarts : List Char → List Char → Bool
  | [], _ => true
  | _ :: _, [] => false
  | a :: as, b :: bs => a == b && listStarts as bs

/-- `strStarts p s` : Python `s.startswith(p)`. -/
def strStarts (p s : String) : Bool := listStarts p.data s.data

/-- `listHasInfix p l` : `p` occurs contiguously inside `l`
(Python `p in s` for strings). -/
def listHasInfix (p : List Char) : List Char → Bool
  | [] => listStarts p []
  | c :: cs => listStarts p (c :: cs) || listHasInfix p cs

/-- Python scalar equality `==` as used for set membership and list
membership tests (`True == 1`, `False == 0`; values of different
non-numeric types are unequal; containers are never compared against
scalars at the call sites modelled here). -/
def pyScalarEq : Doc → Doc → Bool
  | .str a, .str b => a == b
  | .int a, .int b => a == b
  | .bool a, .bool b => a == b
  | .bool a, .int b => (if a then (1 : Int) else 0) == b
  | .int a, .bool b => a == (if b then (1 : Int) else 0)
  | .null, .null => true
  | _, _ => false

/-- Python `k in d` (membership test).  Dict: key membership; list:
element equality scan; string: substring test; scalars: `TypeError`. -/
def pyIn (k : String) (d : Doc) : Except PyErr Bool :=
  match d with
  | .obj kvs => .ok (kvs.any (fun p => p.1 == k))
  | .arr xs  => .ok (xs.any (fun x => pyScalarEq (.str k) x))
  | .str s   => .ok (listHasInfix k.data s.data)
  | _        => .error .typeError

/-- Python `d[k]` with a string key: dict lookup (first, and only,
binding of the key), `KeyError` when absent; any non-dict raises
`TypeError` on a string index. -/
def pyGet (d : Doc) (k : String) : Except PyErr Doc :=
  match d with
  | .obj kvs =>
    match kvs.lookup k with
    | some v => .ok v
    | none   => .error .keyError
  | _ => .error .typeError

/-- Python `d.keys()` (only dicts have it). -/
def pyKeys (d : Doc) : Except PyErr (List String) :=
  match d with
  | .obj kvs => .ok (kvs.map Prod.fst)
  | _ => .error .attributeError

/-- Python `len(d)` (dicts, lists and strings have a length). -/
def pyLen (d : Doc) : Except PyErr Nat :=
  match d with
  | .obj kvs => .ok kvs.length
  | .arr xs  => .ok xs.length
  | .str s   => .ok s.length
  | _        => .error .typeError

/-- Python `d.items()` (only dicts have it). -/
def pyItems (d : Doc) : Except PyErr (List (String × Doc)) :=
  match d with
  | .obj kvs => .ok kvs
  | _ => .error .attributeError

/-- Python `for x in d`: lists yield elements, strings yield one-char
strings, dicts yield their keys; other scalars raise `TypeError`. -/
def pyIter (d : Doc) : Except PyErr (List Doc) :=
  match d with
  | .arr xs  => .ok xs
  | .str s   => .ok (s.data.map (fun c => .str (String.mk [c])))
  | .obj kvs => .ok (kvs.map (fun kv => .str kv.1))
  | _ => .error .typeError

/-- Python hashability: scalars are hashable, lists and dicts are not. -/
def isHashable : Doc → Bool
  | .arr _ => false
  | .obj _ => false
  | _ => true

/-- Python `set.add`: raises `TypeError` on unhashable values, otherwise
inserts the value unless an equal one is already present.  The set is
modelled as a duplicate-free list (only its size is ever read). -/
def setAdd (s : List Doc) (x : Doc) : Except PyErr (List Doc) :=
  if isHashable x then
    .ok (if s.any (pyScalarEq x) then s else s ++ [x])
  else .error .typeError

/-- Python `str.split(c)` for a single-char separator (always returns a
non-empty list of segments). -/
def splitChar (c : Char) : List Char → List (List Char)
  | [] => [[]]
  | x :: xs =>
    match splitChar c xs with
    | [] => [[]]
    | h :: t => if x = c then [] :: h :: t else (x :: h) :: t

/-- `ref.split("/")[-1]`: the last `/`-separated segment of a string. -/
def lastSeg (s : String) : String := String.mk ((splitChar '/' s.data).getLastD [])

mutual
/-- `find_refs` (lines 70-80): depth-first collection of every value of a
`"$ref"` entry whose value is a string; recursion into every other
mapping value and every sequence element, in order. -/
def find_refs : Doc → List String
  | .obj kvs => findRefsEntries kvs
  | .arr xs  => findRefsItems xs
  | _ => []

/-- Entry loop of `find_refs` over `obj.items()`. -/
def findRefsEntries : List (String × Doc) → List String
  | [] => []
  | (k, v) :: rest =>
    (match k == "$ref", v with
     | true, .str s => [s]
     | _,    _      => find_refs v) ++ findRefsEntries rest

/-- Element loop of `find_refs` over a list. -/
def findRefsItems : List Doc → List String
  | [] => []
  | v :: rest => find_refs v ++ findRefsItems rest
end

/-- Per-reference step of the resolver loop (lines 57-65): a reference
with the schema marker head whose last segment is not a declared schema
name yields one error; symmetrically for parameters; anything else
contributes nothing. -/
def refErrorOf (r : String) (schemas params : List String) : List String :=
  if strStarts "#/components/schemas/" r then
    if schemas.contains (lastSeg r) then [] else ["Undefined schema reference: " ++ r]
  else if strStarts "#/components/parameters/" r then
    if params.contains (lastSeg r) then [] else ["Undefined parameter reference: " ++ r]
  else []

/-- The resolver loop over all collected references, in order. -/
def refErrors (refs : List String) (schemas params : List String) : List String :=
  match refs with
  | [] => []
  | r :: rest => refErrorOf r schemas params ++ refErrors rest schemas params

/-- Lines 21-24: the `openapi` field check.  `spec["openapi"].startswith`
raises `AttributeError` whenever the value is not a string. -/
def checkOpenapi (spec : Doc) : Except PyErr (List String) :=
  match pyIn "openapi" spec with
  | .error e => .error e
  | .ok false => .ok ["Missing required field: openapi"]
  | .ok true =>
    match pyGet spec "openapi" with
    | .error e => .error e
    | .ok (.str s) =>
      if strStarts "3." s then .ok []
      else .ok ["Invalid OpenAPI version: " ++ s ++ " (expected 3.x)"]
    | .ok _ => .error .attributeError

/-- Lines 26-33: the `info` / `info.title` / `info.version` checks. -/
def checkInfo (spec : Doc) : Except PyErr (List String) :=
  match pyIn "info" spec with
  | .error e => .error e
  | .ok false => .ok ["Missing required field: info"]
  | .ok true =>
    match pyGet spec "info" with
    | .error e => .error e
    | .ok info =>
      match pyIn "title" info with
      | .error e => .error e
      | .ok hasTitle =>
        match pyIn "version" info with
        | .error e => .error e
        | .ok hasVersion =>
          .ok ((if hasTitle then [] else ["Missing required field: info.title"]) ++
               (if hasVersion then [] else ["Missing required field: info.version"]))

/-- Lines 35-36: the `paths` presence check. -/
def checkPaths (spec : Doc) : Except PyErr (List String) :=
  match pyIn "paths" spec with
  | .error e => .error e
  | .ok false => .ok ["Missing required field: paths"]
  | .ok true => .ok []

/-- `set(container[key].keys()) if key in container else set()` — the
registry construction for one category (lines 45-50). -/
def keysIfPresent (container : Doc) (key : String) : Except PyErr (List String) :=
  match pyIn key container with
  | .error e => .error e
  | .ok false => .ok []
  | .ok true =>
    match pyGet container key with
    | .error e => .error e
    | .ok sub => pyKeys sub

/-- Lines 39-66: the components / dangling-reference block.  Skipped
entirely when `components` is absent; the reference walk is skipped when
`paths` is absent. -/
def componentCheck (spec : Doc) : Except PyErr (List String) :=
  match pyIn "components" spec with
  | .error e => .error e
  | .ok false => .ok []
  | .ok true =>
    match pyGet spec "components" with
    | .error e => .error e
    | .ok components =>
      match keysIfPresent components "schemas" with
      | .error e => .error e
      | .ok defined_schemas =>
        match keysIfPresent components "parameters" with
        | .error e => .error e
        | .ok defined_params =>
          match keysIfPresent components "securitySchemes" with
          | .error e => .error e
          | .ok _defined_security =>
            match pyIn "paths" spec with
            | .error e => .error e
            | .ok false => .ok []
            | .ok true =>
              match pyGet spec "paths" with
              | .error e => .error e
              | .ok pths => .ok (refErrors (find_refs pths) defined_schemas defined_params)

/-- `validate_openapi_structure` (lines 13-67): the four blocks run in
order, their error lists concatenated; any Python exception aborts the
whole call. -/
def validate_openapi_structure (spec : Doc) : Except PyErr (List String) :=
  match checkOpenapi spec with
  | .error e => .error e
  | .ok e1 =>
    match checkInfo spec with
    | .error e => .error e
    | .ok e2 =>
      match checkPaths spec with
      | .error e => .error e
      | .ok e3 =>
        match componentCheck spec with
        | .error e => .error e
        | .ok e4 => .ok (e1 ++ e2 ++ e3 ++ e4)

/-! ## `count_elements` (lines 83-119) -/

/-- The result mapping of `count_elements` (its `tags` entry is replaced
by the size of the tag set on line 118). -/
structure Counts where
  paths : Nat
  operations : Nat
  schemas : Nat
  parameters : Nat
  tags : Nat
  deriving DecidableEq, Repr

/-- The fixed list of HTTP method names (lines 98-106). -/
def httpMethods : List String :=
  ["get", "post", "put", "patch", "delete", "options", "head"]

/-- ASCII lower-casing of one character. -/
def charLower (c : Char) : Char :=
  if 'A' ≤ c ∧ c ≤ 'Z' then Char.ofNat (c.toNat + 32) else c

/-- Python `str.lower()` (ASCII range, which covers the method keys). -/
def pyLower (s : String) : String := String.mk (s.data.map charLower)

/-- Inner `for tag in operation["tags"]` loop (lines 109-110). -/
def addTags (tags : List Doc) : List Doc → Except PyErr (List Doc)
  | [] => .ok tags
  | t :: rest =>
    match setAdd tags t with
    | .error e => .error e
    | .ok tags2 => addTags tags2 rest

/-- Body of the method loop for a single `(method, operation)` item
(lines 97-110). -/
def opStep (ops : Nat) (tags : List Doc) (method : String) (operation : Doc) :
    Except PyErr (Nat × List Doc) :=
  if httpMethods.contains (pyLower method) then
    match operation with
    | .obj okvs =>
      if okvs.any (fun p => p.1 == "tags") then
        match pyGet operation "tags" with
        | .error e => .error e
        | .ok tv =>
          match pyIter tv with
          | .error e => .error e
          | .ok items =>
            match addTags tags items with
            | .error e => .error e
            | .ok tags2 => .ok (ops + 1, tags2)
      else .ok (ops + 1, tags)
    | _ => .ok (ops + 1, tags)
  else .ok (ops, tags)

/-- `for method, operation in methods.items()` (line 97). -/
def methodsLoop (mkvs : List (String × Doc)) (ops : Nat) (tags : List Doc) :
    Except PyErr (Nat × List Doc) :=
  match mkvs with
  | [] => .ok (ops, tags)
  | (m, op) :: rest =>
    match opStep ops tags m op with
    | .error e => .error e
    | .ok (ops2, tags2) => methodsLoop rest ops2 tags2

/-- `for path, methods in spec["paths"].items()` (lines 95-96): only
mapping-valued path entries are scanned. -/
def pathsLoop (pkvs : List (String × Doc)) (ops : Nat) (tags : List Doc) :
    Except PyErr (Nat × List Doc) :=
  match pkvs with
  | [] => .ok (ops, tags)
  | (_p, methods) :: rest =>
    match methods with
    | .obj mkvs =>
      match methodsLoop mkvs ops tags with
      | .error e => .error e
      | .ok (ops2, tags2) => pathsLoop rest ops2 tags2
    | _ => pathsLoop rest ops tags

/-- Lines 93-110: path count, operation count and tag set. -/
def pathsPart (spec : Doc) : Except PyErr (Nat × Nat × List Doc) :=
  match pyIn "paths" spec with
  | .error e => .error e
  | .ok false => .ok (0, 0, [])
  | .ok true =>
    match pyGet spec "paths" with
    | .error e => .error e
    | .ok pths =>
      match pyLen pths with
      | .error e => .error e
      | .ok n =>
        match pyItems pths with
        | .error e => .error e
        | .ok pkvs =>
          match pathsLoop pkvs 0 [] with
          | .error e => .error e
          | .ok (ops, tags) => .ok (n, ops, tags)

/-- `len(container[key]) if key in container else 0` (lines 112-116). -/
def lenIfPresent (container : Doc) (key : String) : Except PyErr Nat :=
  match pyIn key container with
  | .error e => .error e
  | .ok false => .ok 0
  | .ok true =>
    match pyGet container key with
    | .error e => .error e
    | .ok sub => pyLen sub

/-- Lines 112-116: schema and parameter counts. -/
def componentsPart (spec : Doc) : Except PyErr (Nat × Nat) :=
  match pyIn "components" spec with
  | .error e => .error e
  | .ok false => .ok (0, 0)
  | .ok true =>
    match pyGet spec "components" with
    | .error e => .error e
    | .ok components =>
      match lenIfPresent components "schemas" with
      | .error e => .error e
      | .ok sc =>
        match lenIfPresent components "parameters" with
        | .error e => .error e
        | .ok pc => .ok (sc, pc)

/-- `count_elements` (lines 83-119). -/
def count_elements (spec : Doc) : Except PyErr Counts :=
  match pathsPart spec with
  | .error e => .error e
  | .ok (pathsCount, ops, tags) =>
    match componentsPart spec with
    | .error e => .error e
    | .ok (sc, pc) => .ok ⟨pathsCount, ops, sc, pc, tags.length⟩

/-! ## The emitter: `json.dump(spec, f, indent=2, ensure_ascii=False)`
(lines 172-173).

`json` with a positive `indent` puts every container item on its own
line, indented by `indent` spaces per nesting level, uses `", "`-free
item separators (`","` followed by the newline/indent) and `": "` as the
key separator, and writes no trailing newline.  With
`ensure_ascii=False` only the backslash, the double quote and control
characters below U+0020 are escaped in strings. -/

/-- Lower-case hexadecimal digit. -/
def hexDigit (n : Nat) : Char := if n < 10 then Char.ofNat (48 + n) else Char.ofNat (87 + n)

/-- The `json` string escaper for `ensure_ascii=False`: backslash,
double quote and the named control characters get two-char escapes,
other control characters get `\u00XX`, everything else (including all
non-ASCII characters) is kept literally. -/
def escapeChar (c : Char) : List Char :=
  if c = '\\' then ['\\', '\\']
  else if c = '"' then ['\\', '"']
  else if c = Char.ofNat 8 then ['\\', 'b']
  else if c = Char.ofNat 12 then ['\\', 'f']
  else if c = '\n' then ['\\', 'n']
  else if c = Char.ofNat 13 then ['\\', 'r']
  else if c = '\t' then ['\\', 't']
  else if c.toNat < 32 then ['\\', 'u', '0', '0', hexDigit (c.toNat / 16), hexDigit (c.toNat % 16)]
  else [c]

/-- Escape a whole string body. -/
def escapeList : List Char → List Char
  | [] => []
  | c :: cs => escapeChar c ++ escapeList cs

/-- A serialized JSON string: quote, escaped body, quote. -/
def jsonStringData (s : String) : List Char := '"' :: (escapeList s.data ++ ['"'])

/-- Decimal digit character. -/
def decDigit (n : Nat) : Char := Char.ofNat (48 + n)

/-- Decimal digits of a natural number, most significant first
(fuel-structured so that the kernel can evaluate it; any fuel above the
value itself is enough, see `natReprAux_congr`). -/
def natReprAux (fuel n : Nat) : List Char :=
  match fuel with
  | 0 => []
  | fuel + 1 =>
    if n < 10 then [decDigit n]
    else natReprAux fuel (n / 10) ++ [decDigit (n % 10)]

/-- Decimal digits of a natural number (most significant first). -/
def natRepr (n : Nat) : List Char := natReprAux (n + 1) n

/-- Decimal representation of an integer, as printed by `json`. -/
def intRepr (n : Int) : List Char :=
  if n < 0 then '-' :: natRepr n.natAbs else natRepr n.toNat

/-- Newline followed by the indentation of nesting level `lvl`
(2 spaces per level). -/
def nlIndent (lvl : Nat) : List Char := '\n' :: List.replicate (2 * lvl) ' '

mutual
/-- Serialization of one value at nesting level `lvl`. -/
def emitVal (lvl : Nat) : Doc → List Char
  | .null => "null".data
  | .bool true => "true".data
  | .bool false => "false".data
  | .int n => intRepr n
  | .str s => jsonStringData s
  | .arr [] => ['[', ']']
  | .arr (x :: xs) =>
    '[' :: (nlIndent (lvl + 1) ++ emitVal (lvl + 1) x ++ emitItems (lvl + 1) xs ++
      nlIndent lvl ++ [']'])
  | .obj [] => ['{', '}']
  | .obj (kv :: kvs) =>
    '{' :: (nlIndent (lvl + 1) ++ emitEntry (lvl + 1) kv ++ emitEntries (lvl + 1) kvs ++
      nlIndent lvl ++ ['}'])

/-- One `"key": value` member. -/
def emitEntry (lvl : Nat) : String × Doc → List Char
  | (k, v) => jsonStringData k ++ ':' :: ' ' :: emitVal lvl v

/-- Remaining array items, each preceded by `","` and the newline/indent. -/
def emitItems (lvl : Nat) : List Doc → List Char
  | [] => []
  | x :: xs => ',' :: (nlIndent lvl ++ emitVal lvl x ++ emitItems lvl xs)

/-- Remaining object members, each preceded by `","` and the newline/indent. -/
def emitEntries (lvl : Nat) : List (String × Doc) → List Char
  | [] => []
  | kv :: kvs => ',' :: (nlIndent lvl ++ emitEntry lvl kv ++ emitEntries lvl kvs)
end

/-- The Emitter: the exact text `json.dump(spec, f, indent=2,
ensure_ascii=False)` writes. -/
def emit (d : Doc) : String := String.mk (emitVal 0 d)

/-! ## The pipeline `main` (lines 122-192) -/

/-- Outcome of the YAML loading step (lines 131-143): the loader is the
external `yaml.safe_load`; `main` distinguishes a missing file, a syntax
error, and a successfully loaded tree. -/
inductive LoadOutcome where
  | notFound
  | syntaxError
  | loaded (spec : Doc)

/-- Observable result of one `main` run: the process exit code and the
content written to the output JSON file (`none` when the file was not
touched). -/
structure PipeResult where
  exitCode : Nat
  written : Option String
  deriving DecidableEq

/-- `main` (lines 122-192) as a function of the load outcome: load
failures exit 1 before validation; a non-empty validation report exits 1
before emission; an uncaught Python exception (from `validate` or
`count_elements`) also terminates the process with exit status 1 without
reaching the write; otherwise the JSON serialization of the tree is
written and the process exits 0. -/
def main (load : LoadOutcome) : PipeResult :=
  match load with
  | .notFound => ⟨1, none⟩
  | .syntaxError => ⟨1, none⟩
  | .loaded spec =>
    match validate_openapi_structure spec with
    | .error _ => ⟨1, none⟩
    | .ok errs =>
      if errs.isEmpty then
        match count_elements spec with
        | .error _ => ⟨1, none⟩
        | .ok _ => ⟨0, some (emit spec)⟩
      else ⟨1, none⟩

/-! ## The loader, for the round-trip claim C9.

Modelled from the spec (§4.1 Document Loader): the loader is the
external YAML parser (`yaml.safe_load`), which is not part of this
repository; the spec says it "parses a textual specification (YAML
syntax) into an in-memory tree of mappings, sequences, and scalars".
Since the Emitter produces JSON — a subset of YAML — the loader is
modelled as a parser of exactly that textual form: JSON values with
string keys, integer numbers, the two-char and `\u`-escapes in strings,
and whitespace between tokens, building mappings with Python-dict
insertion semantics (`dictInsert`). -/

/-- JSON/YAML inter-token whitespace. -/
def isWs (c : Char) : Bool :=
  c = ' ' || c = '\n' || c = '\t' || c = Char.ofNat 13

/-- Drop leading whitespace. -/
def skipWs : List Char → List Char
  | [] => []
  | c :: cs => if isWs c then skipWs cs else c :: cs

/-- Value of one hexadecimal digit. -/
def hexVal (c : Char) : Option Nat :=
  if '0' ≤ c ∧ c ≤ '9' then some (c.toNat - 48)
  else if 'a' ≤ c ∧ c ≤ 'f' then some (c.toNat - 87)
  else if 'A' ≤ c ∧ c ≤ 'F' then some (c.toNat - 55)
  else none

/-- Decode one escape sequence (the part after the backslash). -/
def decodeEscape : List Char → Option (Char × List Char)
  | 'n' :: cs => some ('\n', cs)
  | 't' :: cs => some ('\t', cs)
  | 'r' :: cs => some (Char.ofNat 13, cs)
  | 'b' :: cs => some (Char.ofNat 8, cs)
  | 'f' :: cs => some (Char.ofNat 12, cs)
  | '"' :: cs => some ('"', cs)
  | '\\' :: cs => some ('\\', cs)
  | '/' :: cs => some ('/', cs)
  | 'u' :: a :: b :: x :: y :: cs =>
    match hexVal a, hexVal b, hexVal x, hexVal y with
    | some va, some vb, some vx, some vy =>
      some (Char.ofNat (((va * 16 + vb) * 16 + vx) * 16 + vy), cs)
    | _, _, _, _ => none
  | _ => none

/-- Read the body of a double-quoted string up to the closing quote
(fuelled; any fuel above the decoded length suffices). -/
def readStringBody (fuel : Nat) (l : List Char) : Option (List Char × List Char) :=
  match fuel with
  | 0 => none
  | fuel + 1 =>
    match l with
    | [] => none
    | c :: cs =>
      if c = '"' then some ([], cs)
      else if c = '\\' then
        match decodeEscape cs with
        | none => none
        | some (ch, rest) =>
          match readStringBody fuel rest with
          | none => none
          | some (s, r2) => some (ch :: s, r2)
      else
        match readStringBody fuel cs with
        | none => none
        | some (s, r2) => some (c :: s, r2)

/-- Read a maximal run of decimal digits into an accumulator. -/
def readDigits (acc : Nat) : List Char → Nat × List Char
  | [] => (acc, [])
  | c :: cs => if c.isDigit then readDigits (acc * 10 + (c.toNat - 48)) cs else (acc, c :: cs)

/-- Python-dict insertion: an existing key keeps its position and gets
the new value; a fresh key is appended. -/
def dictInsert (kvs : List (String × Doc)) (k : String) (v : Doc) : List (String × Doc) :=
  match kvs with
  | [] => [(k, v)]
  | (k0, v0) :: rest => if k0 = k then (k0, v) :: rest else (k0, v0) :: dictInsert rest k v

mutual
/-- Parse one value after skipping whitespace (fuelled). -/
def parseVal : Nat → List Char → Option (Doc × List Char)
  | 0, _ => none
  | fuel + 1, l =>
    match skipWs l with
    | [] => none
    | c :: cs =>
      if c = '{' then
        match skipWs cs with
        | [] => none
        | c2 :: r => if c2 = '}' then some (.obj [], r) else parseMembers fuel (c2 :: r) []
      else if c = '[' then
        match skipWs cs with
        | [] => none
        | c2 :: r => if c2 = ']' then some (.arr [], r) else parseItems fuel (c2 :: r) []
      else if c = '"' then
        match readStringBody (cs.length + 1) cs with
        | some (s, r) => some (.str (String.mk s), r)
        | none => none
      else if c = 't' then
        match cs with
        | 'r' :: 'u' :: 'e' :: r => some (.bool true, r)
        | _ => none
      else if c = 'f' then
        match cs with
        | 'a' :: 'l' :: 's' :: 'e' :: r => some (.bool false, r)
        | _ => none
      else if c = 'n' then
        match cs with
        | 'u' :: 'l' :: 'l' :: r => some (.null, r)
        | _ => none
      else if c = '-' then
        match cs with
        | [] => none
        | d :: ds =>
          if d.isDigit then
            some (.int (-((readDigits (d.toNat - 48) ds).1 : Int)),
              (readDigits (d.toNat - 48) ds).2)
          else none
      else if c.isDigit then
        some (.int ((readDigits (c.toNat - 48) cs).1 : Int),
          (readDigits (c.toNat - 48) cs).2)
      else none

/-- Parse the members of a non-empty object, accumulating into a dict. -/
def parseMembers : Nat → List Char → List (String × Doc) → Option (Doc × List Char)
  | 0, _, _ => none
  | fuel + 1, l, acc =>
    match skipWs l with
    | [] => none
    | c :: cs =>
      if c = '"' then
        match readStringBody (cs.length + 1) cs with
        | none => none
        | some (k, r1) =>
          match skipWs r1 with
          | [] => none
          | c2 :: r2 =>
            if c2 = ':' then
              match parseVal fuel r2 with
              | none => none
              | some (v, r3) =>
                match skipWs r3 with
                | [] => none
                | c3 :: r4 =>
                  if c3 = ',' then parseMembers fuel r4 (dictInsert acc (String.mk k) v)
                  else if c3 = '}' then some (.obj (dictInsert acc (String.mk k) v), r4)
                  else none
            else none
      else none

/-- Parse the items of a non-empty array. -/
def parseItems : Nat → List Char → List Doc → Option (Doc × List Char)
  | 0, _, _ => none
  | fuel + 1, l, acc =>
    match parseVal fuel l with
    | none => none
    | some (v, r1) =>
      match skipWs r1 with
      | [] => none
      | c :: r2 =>
        if c = ',' then parseItems fuel r2 (acc ++ [v])
        else if c = ']' then some (.arr (acc ++ [v]), r2)
        else none
end

/-- The Loader on a whole textual document: parse one value and require
only whitespace after it. `loadJson` is the restriction of the full
loader model `loadJsonF` below to the float-free language `emitVal`
writes (a plain scalar token written by `emitVal` is a keyword or a
pure digit run with optional minus sign, which `resolvePlain` resolves
exactly as the literal branches of `parseVal` do). -/
def loadJson (s : String) : Option Doc :=
  match parseVal (s.data.length + 1) s.data with
  | some (d, rest) => if skipWs rest = [] then some d else none
  | none => none

/-! ## The full data model with float scalars, for C9.

`Doc` is the float-free fragment of the data model: the trees the
loader and emitter exchange also carry Python floats. `json.dump`
writes a float as its shortest round-trip `repr` text (the stdlib
encoder uses `float.__repr__`), so a float scalar is modelled here by
that text — two floats are equal exactly when their reprs are. The
loader side follows the YAML 1.1 resolver of `yaml.safe_load`: a plain
(unquoted) scalar token is an integer only in the decimal-digits form,
and a float only in a form that contains a decimal dot (with a
mandatory sign in the exponent); every other plain token — the dotless
exponent form `repr` gives every float of magnitude at least 1e16,
such as `1e+25`, and the `Infinity` / `NaN` spellings — resolves to a
string. -/

/-- The data model with float scalars; a float is carried by its
shortest-repr text, which is exactly what `json.dump` writes for it. -/
inductive DocF where
  | str (s : String)
  | int (n : Int)
  | float (r : List Char)
  | bool (b : Bool)
  | null
  | arr (xs : List DocF)
  | obj (kvs : List (String × DocF))

/-- Characters ending a plain scalar token in flow context. -/
def isPlainEnd (c : Char) : Bool :=
  isWs c || c = ',' || c = ']' || c = '\x7d' || c = ':'

/-- Read a plain scalar token up to a delimiter. -/
def readPlain : List Char → List Char × List Char
  | [] => ([], [])
  | c :: cs =>
    if isPlainEnd c then ([], c :: cs)
    else
      match readPlain cs with
      | (t, r) => (c :: t, r)

/-- Drop a leading run of decimal digits. -/
def dropDigits : List Char → List Char
  | [] => []
  | c :: cs => if c.isDigit then dropDigits cs else c :: cs

/-- YAML 1.1 decimal integer form: an optional sign, then digits. -/
def isIntTok (t : List Char) : Bool :=
  match t with
  | '-' :: ds => !ds.isEmpty && ds.all (fun c => c.isDigit)
  | '+' :: ds => !ds.isEmpty && ds.all (fun c => c.isDigit)
  | ds => !ds.isEmpty && ds.all (fun c => c.isDigit)

/-- What may follow the fraction digits of the YAML 1.1 float form:
nothing, or an exponent with a mandatory sign. -/
def isExpTail (t : List Char) : Bool :=
  match t with
  | [] => true
  | e :: s :: ds =>
    (e = 'e' || e = 'E') && (s = '+' || s = '-') &&
      (!ds.isEmpty && ds.all (fun c => c.isDigit))
  | _ => false

/-- The unsigned part of the YAML 1.1 decimal float form: digits, a
mandatory decimal dot, fraction digits, and `isExpTail`. -/
def isFloatTok2 (t : List Char) : Bool :=
  match t with
  | [] => false
  | c :: _ =>
    c.isDigit &&
      (match dropDigits t with
       | '.' :: r2 => isExpTail (dropDigits r2)
       | _ => false)

/-- YAML 1.1 decimal float form: an optional sign, then the unsigned
form. A token without a decimal dot never matches. -/
def isFloatTok (t : List Char) : Bool :=
  match t with
  | '-' :: r => isFloatTok2 r
  | '+' :: r => isFloatTok2 r
  | r => isFloatTok2 r

/-- Resolve a plain scalar token as the YAML 1.1 resolver does on the
language the emitter writes: keyword, else decimal integer, else
decimal float (a dot is mandatory), else string. -/
def resolvePlain (t : List Char) : DocF :=
  if t = "null".data then .null
  else if t = "true".data then .bool true
  else if t = "false".data then .bool false
  else if isIntTok t then
    match t with
    | '-' :: ds => .int (-((readDigits 0 ds).1 : Int))
    | '+' :: ds => .int ((readDigits 0 ds).1 : Int)
    | ds => .int ((readDigits 0 ds).1 : Int)
  else if isFloatTok t then .float t
  else .str (String.mk t)

/-- Python-dict insertion on the full model. -/
def dictInsertF (kvs : List (String × DocF)) (k : String) (v : DocF) :
    List (String × DocF) :=
  match kvs with
  | [] => [(k, v)]
  | (k0, v0) :: rest => if k0 = k then (k0, v) :: rest else (k0, v0) :: dictInsertF rest k v

mutual
/-- Full-model parser: containers and quoted strings as in `parseVal`,
and every other value read as one plain scalar token and resolved by
`resolvePlain`. -/
def parseValF : Nat → List Char → Option (DocF × List Char)
  | 0, _ => none
  | fuel + 1, l =>
    match skipWs l with
    | [] => none
    | c :: cs =>
      if c = '\x7b' then
        match skipWs cs with
        | [] => none
        | c2 :: r => if c2 = '\x7d' then some (.obj [], r) else parseMembersF fuel (c2 :: r) []
      else if c = '[' then
        match skipWs cs with
        | [] => none
        | c2 :: r => if c2 = ']' then some (.arr [], r) else parseItemsF fuel (c2 :: r) []
      else if c = '"' then
        match readStringBody (cs.length + 1) cs with
        | some (s, r) => some (.str (String.mk s), r)
        | none => none
      else
        match readPlain (c :: cs) with
        | ([], _) => none
        | (t, r) => some (resolvePlain t, r)

/-- Full-model object members. -/
def parseMembersF : Nat → List Char → List (String × DocF) → Option (DocF × List Char)
  | 0, _, _ => none
  | fuel + 1, l, acc =>
    match skipWs l with
    | [] => none
    | c :: cs =>
      if c = '"' then
        match readStringBody (cs.length + 1) cs with
        | none => none
        | some (k, r1) =>
          match skipWs r1 with
          | [] => none
          | c2 :: r2 =>
            if c2 = ':' then
              match parseValF fuel r2 with
              | none => none
              | some (v, r3) =>
                match skipWs r3 with
                | [] => none
                | c3 :: r4 =>
                  if c3 = ',' then parseMembersF fuel r4 (dictInsertF acc (String.mk k) v)
                  else if c3 = '\x7d' then some (.obj (dictInsertF acc (String.mk k) v), r4)
                  else none
            else none
      else none

/-- Full-model array items. -/
def parseItemsF : Nat → List Char → List DocF → Option (DocF × List Char)
  | 0, _, _ => none
  | fuel + 1, l, acc =>
    match parseValF fuel l with
    | none => none
    | some (v, r1) =>
      match skipWs r1 with
      | [] => none
      | c :: r2 =>
        if c = ',' then parseItemsF fuel r2 (acc ++ [v])
        else if c = ']' then some (.arr (acc ++ [v]), r2)
        else none
end

mutual
/-- Full-model serialization: as `emitVal`, with a float written as its
repr text (what `json.dump` does with a float). -/
def emitValF (lvl : Nat) : DocF → List Char
  | .null => "null".data
  | .bool true => "true".data
  | .bool false => "false".data
  | .int n => intRepr n
  | .float r => r
  | .str s => jsonStringData s
  | .arr [] => ['[', ']']
  | .arr (x :: xs) =>
    '[' :: (nlIndent (lvl + 1) ++ emitValF (lvl + 1) x ++ emitItemsF (lvl + 1) xs ++
      nlIndent lvl ++ [']'])
  | .obj [] => ['\x7b', '\x7d']
  | .obj (kv :: kvs) =>
    '\x7b' :: (nlIndent (lvl + 1) ++ emitEntryF (lvl + 1) kv ++ emitEntriesF (lvl + 1) kvs ++
      nlIndent lvl ++ ['\x7d'])

/-- Full-model `"key": value` member. -/
def emitEntryF (lvl : Nat) : String × DocF → List Char
  | (k, v) => jsonStringData k ++ ':' :: ' ' :: emitValF lvl v

/-- Full-model remaining array items. -/
def emitItemsF (lvl : Nat) : List DocF → List Char
  | [] => []
  | x :: xs => ',' :: (nlIndent lvl ++ emitValF lvl x ++ emitItemsF lvl xs)

/-- Full-model remaining object members. -/
def emitEntriesF (lvl : Nat) : List (String × DocF) → List Char
  | [] => []
  | kv :: kvs => ',' :: (nlIndent lvl ++ emitEntryF lvl kv ++ emitEntriesF lvl kvs)
end

/-- The Emitter on the full model. -/
def emitF (d : DocF) : String := String.mk (emitValF 0 d)

/-- The Loader on the full model. -/
def loadJsonF (s : String) : Option DocF :=
  match parseValF (s.data.length + 1) s.data with
  | some (d, rest) => if skipWs rest = [] then some d else none
  | none => none

mutual
/-- Fuel needed by `parseVal` on the emission of a value. -/
def valCost : Doc → Nat
  | .str _ => 1
  | .int _ => 1
  | .bool _ => 1
  | .null => 1
  | .arr xs => 1 + itemsCost xs
  | .obj kvs => 1 + msCost kvs

/-- Fuel needed by `parseItems` on the emitted items. -/
def itemsCost : List Doc → Nat
  | [] => 0
  | x :: xs => 1 + max (valCost x) (itemsCost xs)

/-- Fuel needed by `parseMembers` on the emitted members. -/
def msCost : List (String × Doc) → Nat
  | [] => 0
  | kv :: kvs => 1 + max (valCost kv.2) (msCost kvs)
end

/-- Duplicate-freedom of a key list. -/
def nodupKeysB : List String → Bool
  | [] => true
  | k :: ks => (!ks.contains k) && nodupKeysB ks

mutual
/-- Well-formed document: every mapping has pairwise-distinct keys
(always true of a tree produced by the loader, whose mappings are
Python dicts). -/
def wfDoc : Doc → Bool
  | .obj kvs => nodupKeysB (kvs.map Prod.fst) && wfEntries kvs
  | .arr xs => wfItems xs
  | _ => true

/-- Well-formedness of all entry values. -/
def wfEntries : List (String × Doc) → Bool
  | [] => true
  | kv :: rest => wfDoc kv.2 && wfEntries rest

/-- Well-formedness of all items. -/
def wfItems : List Doc → Bool
  | [] => true
  | x :: rest => wfDoc x && wfItems rest
end

/-- The first character is not a digit (nothing after a serialized
number may extend it). -/
def noDigitHead (l : List Char) : Prop :=
  ∀ c, l.head? = some c → c.isDigit = false

/-- All characters are whitespace. -/
def allWs (l : List Char) : Prop := ∀ c ∈ l, isWs c = true

/-- Round-trip property of one document: parsing its emission (any
nesting level, any sufficient fuel, any whitespace before it, any
non-digit-leading continuation after it) returns exactly the document
and the continuation. -/
def ParsesBack (d : Doc) : Prop :=
  ∀ (lvl fuel : Nat) (ws rest : List Char),
    valCost d ≤ fuel → allWs ws → noDigitHead rest → wfDoc d = true →
    parseVal fuel (ws ++ (emitVal lvl d ++ rest)) = some (d, rest)

/-! ## Families and reference definitions used by the claims -/

/-- `info` object containing an optional `title` and `version`. -/
def mkInfo (hasTitle hasVersion : Bool) (ti ve : String) : Doc :=
  .obj ((if hasTitle then [("title", Doc.str ti)] else []) ++
        (if hasVersion then [("version", Doc.str ve)] else []))

/-- An otherwise-valid document from which any subset of the five checked
fields {`openapi`, `info`, `info.title`, `info.version`, `paths`} has
been removed (a `true` flag means the field is present); the version
string, title, version and `paths` value are arbitrary. -/
def mkSpec (hasOpenapi hasInfo hasTitle hasVersion hasPaths : Bool)
    (ver ti ve : String) (pths : Doc) : Doc :=
  .obj ((if hasOpenapi then [("openapi", Doc.str ver)] else []) ++
        (if hasInfo then [("info", mkInfo hasTitle hasVersion ti ve)] else []) ++
        (if hasPaths then [("paths", pths)] else []))

/-- The errors the five independent checks should produce for a given
removal pattern: one error naming each removed field (the `info.title` /
`info.version` checks only run when `info` itself is present). -/
def expectedErrs (hasOpenapi hasInfo hasTitle hasVersion hasPaths : Bool) : List String :=
  (if hasOpenapi then [] else ["Missing required field: openapi"]) ++
  (if hasInfo then
     (if hasTitle then [] else ["Missing required field: info.title"]) ++
     (if hasVersion then [] else ["Missing required field: info.version"])
   else ["Missing required field: info"]) ++
  (if hasPaths then [] else ["Missing required field: paths"])

mutual
/-- Modelled from the spec (§4.3 Reference Collector): "For every
Mapping entry whose key is the reference marker and whose value is a
string, emit that string into the output sequence; recurse into every
Mapping value and every Sequence element regardless of marker matches",
depth-first, mapping-key order then sequence order.  Used as the
specification side of the refinement claim C6. -/
def collectRefsSpec : Doc → List String
  | .obj kvs => collectEntriesSpec kvs
  | .arr xs  => collectItemsSpec xs
  | _ => []

/-- Spec-side collector over the entries of a mapping. -/
def collectEntriesSpec : List (String × Doc) → List String
  | [] => []
  | (k, v) :: rest =>
    (match k == "$ref", v with
     | true, .str s => [s]
     | _,    _      => []) ++ collectRefsSpec v ++ collectEntriesSpec rest

/-- Spec-side collector over the elements of a sequence. -/
def collectItemsSpec : List Doc → List String
  | [] => []
  | v :: rest => collectRefsSpec v ++ collectItemsSpec rest
end

/-- Proof-side mirror of one Python `set.add` on a set of strings. -/
def strIns (acc : List String) (t : String) : List String :=
  if t ∈ acc then acc else acc ++ [t]

/-- Proof-side mirror of folding `set.add` over a list of strings. -/
def strFoldIns (acc : List String) : List String → List String
  | [] => acc
  | t :: ts => strFoldIns (strIns acc t) ts

/-- An operation object carrying only a `tags` array of strings. -/
def mkOp (tags : List String) : Doc := .obj [("tags", .arr (tags.map Doc.str))]

/-- The C8 scenario document: two paths, the first exposing `get` and
`post`, the second exposing only `delete`, each operation carrying a
`tags` array. -/
def c8spec (t1 t2 t3 : List String) : Doc :=
  .obj [("paths", .obj [
    ("/p1", .obj [("get", mkOp t1), ("post", mkOp t2)]),
    ("/p2", .obj [("delete", mkOp t3)])])]

/-! ## Generic helper lemmas -/

/-- Two strings are different when they differ at some character position. -/
theorem str_ne_of_get_ne {a b : String} (i : Nat) (h : a.data[i]? ≠ b.data[i]?) : a ≠ b :=
  fun hab => h (by rw [hab])

/-- Left cancellation of string append. -/
theorem strAppend_cancel_left {a b c : String} (h : a ++ b = a ++ c) : b = c := by
  apply String.ext
  have hd : a.data ++ b.data = a.data ++ c.data := by
    have := congrArg String.data h
    simpa using this
  exact List.append_cancel_left hd

/-- `listStarts` holds on any extension of the pattern itself. -/
theorem listStarts_append (p t : List Char) : listStarts p (p ++ t) = true := by
  induction p with
  | nil => rfl
  | cons a as ih => simp [listStarts, ih]

/-- Python `startswith` holds for `p ++ t` tested against `p`. -/
theorem strStarts_append (p t : String) : strStarts p (p ++ t) = true := by
  unfold strStarts
  rw [String.data_append]
  exact listStarts_append p.data t.data

/-- `natReprAux` is fuel-independent once the fuel exceeds the value. -/
theorem natReprAux_congr : ∀ fuel fuel' n, n < fuel → n < fuel' →
    natReprAux fuel n = natReprAux fuel' n := by
  intro fuel
  induction fuel with
  | zero => intro fuel' n h h'; omega
  | succ fuel ih =>
    intro fuel' n h h'
    cases fuel' with
    | zero => omega
    | succ fuel' =>
      by_cases h10 : n < 10
      · simp [natReprAux, h10]
      · have hd : n / 10 < n := Nat.div_lt_self (by omega) (by omega)
        simp only [natReprAux, if_neg h10]
        rw [ih fuel' (n / 10) (by omega) (by omega)]

/-- Recursion equation for `natRepr`. -/
theorem natRepr_eq (n : Nat) :
    natRepr n = if n < 10 then [decDigit n] else natRepr (n / 10) ++ [decDigit (n % 10)] := by
  show (if n < 10 then [decDigit n] else natReprAux n (n / 10) ++ [decDigit (n % 10)]) = _
  by_cases h10 : n < 10
  · simp [h10]
  · have hd : n / 10 < n := Nat.div_lt_self (by omega) (by omega)
    simp only [if_neg h10]
    rw [natReprAux_congr n (n / 10 + 1) (n / 10) (by omega) (by omega)]
    rfl

/-- `splitChar` never returns the empty list. -/
theorem splitChar_ne_nil (c : Char) (l : List Char) : splitChar c l ≠ [] := by
  cases l with
  | nil => simp [splitChar]
  | cons x xs =>
    unfold splitChar
    cases hs : splitChar c xs with
    | nil => simp
    | cons h t =>
      by_cases hx : x = c <;> simp [hx]

/-- A list without the separator splits into a single segment. -/
theorem splitChar_no_sep {c : Char} {l : List Char} (h : c ∉ l) : splitChar c l = [l] := by
  induction l with
  | nil => rfl
  | cons x xs ih =>
    unfold splitChar
    rw [ih (fun hm => h (List.mem_cons_of_mem _ hm))]
    have hxc : ¬(x = c) := fun he => h (he ▸ List.mem_cons_self x xs)
    simp [hxc]

/-- A list containing the separator splits into at least two segments. -/
theorem splitChar_length2 {c : Char} {l : List Char} (h : c ∈ l) :
    2 ≤ (splitChar c l).length := by
  induction l with
  | nil => cases h
  | cons x xs ih =>
    unfold splitChar
    cases hs : splitChar c xs with
    | nil => exact absurd hs (splitChar_ne_nil c xs)
    | cons h0 t =>
      by_cases hx : x = c
      · simp [hx]
      · have hm : c ∈ xs := by
          rcases List.mem_cons.1 h with h1 | h1
          · exact absurd h1.symm hx
          · exact h1
        have := ih hm
        rw [hs] at this
        simp at this
        simp [hx]
        omega

/-- The last segment of `p ++ [c] ++ l` is `l` when `l` avoids `c`. -/
theorem getLastD_splitChar_append (c : Char) (p l : List Char) (hl : c ∉ l) :
    (splitChar c (p ++ c :: l)).getLastD [] = l := by
  induction p with
  | nil =>
    simp only [List.nil_append]
    unfold splitChar
    rw [splitChar_no_sep hl]
    simp
  | cons x p ih =>
    have hmem : c ∈ p ++ c :: l := List.mem_append_right _ (List.mem_cons_self c l)
    simp only [List.cons_append]
    unfold splitChar
    cases hs : splitChar c (p ++ c :: l) with
    | nil => exact absurd hs (splitChar_ne_nil _ _)
    | cons h0 t =>
      have hlen : 2 ≤ (h0 :: t).length := hs ▸ splitChar_length2 hmem
      have ht : t ≠ [] := by
        intro he
        rw [he] at hlen
        simp at hlen
      rw [hs] at ih
      obtain ⟨y, hy⟩ : ∃ y, t.getLast? = some y := by
        cases hgl : t.getLast? with
        | none => exact absurd (List.getLast?_eq_none_iff.1 hgl) ht
        | some y => exact ⟨y, rfl⟩
      have hyl : y = l := by
        rw [List.getLastD_cons, List.getLastD_eq_getLast?, hy] at ih
        simpa using ih
      obtain ⟨t0, ts, rfl⟩ := List.exists_cons_of_ne_nil ht
      by_cases hx : x = c <;>
        simp [hx, List.getLastD_cons, List.getLastD_eq_getLast?,
          List.getLast?_cons_cons, hy, hyl]

/-- `ref.split("/")[-1]` of a schema-style reference `head ++ name` where
the name has no slash: the head ends in a slash, so the result is the name. -/
theorem lastSeg_append (head tail : String) (hHead : ∃ p, head.data = p ++ ['/'])
    (hTail : '/' ∉ tail.data) : lastSeg (head ++ tail) = tail := by
  obtain ⟨p, hp⟩ := hHead
  apply String.ext
  unfold lastSeg
  rw [String.data_append, hp]
  have : p ++ ['/'] ++ tail.data = p ++ '/' :: tail.data := by simp
  rw [this, getLastD_splitChar_append '/' p tail.data hTail]

/-- Membership-flavoured reading of the raw key scan `kvs.any (· == k)`
used by `pyIn` on mappings. -/
theorem any_key_eq_of_lookup {kvs : List (String × Doc)} {k : String} {v : Doc}
    (h : kvs.lookup k = some v) : (kvs.any fun p => p.1 == k) = true := by
  induction kvs with
  | nil => simp [List.lookup] at h
  | cons kv rest ih =>
    obtain ⟨k0, v0⟩ := kv
    by_cases hk : k = k0
    · subst hk
      simp [List.any_cons]
    · have hbeq : (k == k0) = false := by
        rw [beq_eq_false_iff_ne]
        exact hk
      simp only [List.lookup, hbeq] at h
      simp [List.any_cons, ih h]

/-! ## C10 -/

/-- **C10**: `validate_openapi_structure` is not total over loaded
documents.  For a `null` root (the load of an empty file) or a
non-container scalar root (a number or a boolean), the very first
membership check `"openapi" not in spec` raises `TypeError` instead of
producing a report. -/
theorem c10_nonmapping_root_raises :
    validate_openapi_structure Doc.null = .error .typeError ∧
    (∀ n : Int, validate_openapi_structure (.int n) = .error .typeError) ∧
    (∀ b : Bool, validate_openapi_structure (.bool b) = .error .typeError) :=
  ⟨rfl, fun _ => rfl, fun _ => rfl⟩

/-! ## C4 -/

/-- **C4**: whenever the loader fails (missing file or syntax error) or
the validation report is non-empty, `main` exits with a non-zero status
and the output JSON file is never written. -/
theorem c4_halt_before_emission (lo : LoadOutcome)
    (h : lo = .notFound ∨ lo = .syntaxError ∨
      ∃ spec errs, lo = .loaded spec ∧
        validate_openapi_structure spec = .ok errs ∧ errs ≠ []) :
    (main lo).exitCode ≠ 0 ∧ (main lo).written = none := by
  rcases h with h | h | ⟨spec, errs, h, hv, hne⟩ <;> subst h
  · exact ⟨one_ne_zero, rfl⟩
  · exact ⟨one_ne_zero, rfl⟩
  · cases errs with
    | nil => exact absurd rfl hne
    | cons e es => simp [main, hv]

/-- Witness for C4 at a concrete input: a syntax error halts with
non-zero exit and nothing written. -/
theorem c4_witness :
    (main .syntaxError).exitCode ≠ 0 ∧ (main .syntaxError).written = none :=
  c4_halt_before_emission .syntaxError (Or.inr (Or.inl rfl))

/-! ## C3 -/

/-- **C3**: the five structural checks are independent and accumulate
without short-circuiting: over every removal pattern of
{`openapi`, `info`, `info.title`, `info.version`, `paths`} from an
otherwise-valid document (arbitrary 3.x version string, title, version
and paths value), the report contains exactly one error naming each
removed field, independent of the other removals; and the empty mapping
yields exactly the three errors for `openapi`, `info` and `paths`,
without crashing. -/
theorem c3_checks_independent :
    (∀ (b1 b2 b3 b4 b5 : Bool) (ver ti ve : String) (pths : Doc),
      strStarts "3." ver = true →
      validate_openapi_structure (mkSpec b1 b2 b3 b4 b5 ver ti ve pths) =
        .ok (expectedErrs b1 b2 b3 b4 b5)) ∧
    validate_openapi_structure (.obj []) =
      .ok ["Missing required field: openapi", "Missing required field: info",
           "Missing required field: paths"] := by
  constructor
  · intro b1 b2 b3 b4 b5 ver ti ve pths h
    cases b1 <;> cases b2 <;> cases b3 <;> cases b4 <;> cases b5 <;>
      simp [validate_openapi_structure, checkOpenapi, checkInfo, checkPaths,
        componentCheck, mkSpec, mkInfo, expectedErrs, pyIn, pyGet, List.lookup, h]
  · rfl

/-- Witness for C3 at concrete inputs: removing exactly `info.version`
and `paths` yields exactly those two errors. -/
theorem c3_witness :
    validate_openapi_structure
        (mkSpec true true true false false "3.1.0" "T" "V" (.obj [])) =
      .ok ["Missing required field: info.version", "Missing required field: paths"] :=
  c3_checks_independent.1 true true true false false "3.1.0" "T" "V" (.obj []) (by decide)

/-! ## C7 -/

/-- `natRepr` never returns the empty list. -/
theorem natRepr_ne_nil (n : Nat) : natRepr n ≠ [] := by
  rw [natRepr_eq]
  split <;> simp

/-- Every `natRepr` output ends in a decimal digit character. -/
theorem natRepr_last (n : Nat) : ∃ k, k < 10 ∧ (natRepr n).getLast? = some (decDigit k) := by
  rw [natRepr_eq]
  by_cases h10 : n < 10
  · exact ⟨n, h10, by simp [h10]⟩
  · exact ⟨n % 10, Nat.mod_lt _ (by omega), by simp [h10, List.getLast?_concat]⟩

/-- Every `intRepr` output ends in a decimal digit character. -/
theorem intRepr_last (n : Int) : ∃ k, k < 10 ∧ (intRepr n).getLast? = some (decDigit k) := by
  unfold intRepr
  by_cases hn : n < 0 <;> simp only [hn, if_true, if_false]
  · obtain ⟨k, hk, hl⟩ := natRepr_last n.natAbs
    obtain ⟨x, xs, hxs⟩ := List.exists_cons_of_ne_nil (natRepr_ne_nil n.natAbs)
    refine ⟨k, hk, ?_⟩
    rw [hxs]
    rw [hxs] at hl
    rw [List.getLast?_cons_cons]
    exact hl
  · exact natRepr_last n.toNat

/-- No decimal digit character is a newline. -/
theorem decDigit_ne_nl : ∀ k < 10, decDigit k ≠ '\n' := by decide

/-- The serialization of any value ends in a non-newline character
(a closing bracket, quote, digit or keyword letter). -/
theorem emitVal_last (lvl : Nat) (d : Doc) :
    ∃ c, (emitVal lvl d).getLast? = some c ∧ c ≠ '\n' := by
  cases d with
  | null => exact ⟨'l', rfl, by decide⟩
  | bool b => cases b with
    | true => exact ⟨'e', rfl, by decide⟩
    | false => exact ⟨'e', rfl, by decide⟩
  | int n =>
    obtain ⟨k, hk, hl⟩ := intRepr_last n
    exact ⟨decDigit k, hl, decDigit_ne_nl k hk⟩
  | str s =>
    refine ⟨'"', ?_, by decide⟩
    show (jsonStringData s).getLast? = _
    unfold jsonStringData
    rw [← List.cons_append]
    exact List.getLast?_concat _
  | arr xs =>
    cases xs with
    | nil => exact ⟨']', rfl, by decide⟩
    | cons x rest =>
      refine ⟨']', ?_, by decide⟩
      show (emitVal lvl (.arr (x :: rest))).getLast? = _
      unfold emitVal
      rw [← List.cons_append]
      exact List.getLast?_concat _
  | obj kvs =>
    cases kvs with
    | nil => exact ⟨'\x7d', rfl, by decide⟩
    | cons kv rest =>
      refine ⟨'\x7d', ?_, by decide⟩
      show (emitVal lvl (.obj (kv :: rest))).getLast? = _
      unfold emitVal
      rw [← List.cons_append]
      exact List.getLast?_concat _

/-- **C7** (counterexample): the Emitter writes no trailing newline.
The serialization of `{"a": 1}` is exactly `{\n  "a": 1\n}`, whose last
character is the closing brace, not a newline — contradicting the
claimed "single trailing newline at the end of the output". -/
theorem c7_counterexample :
    emit (.obj [("a", .int 1)]) = "\x7b\n  \"a\": 1\n\x7d" ∧
    (emit (.obj [("a", .int 1)])).data.getLast? = some '\x7d' :=
  ⟨rfl, rfl⟩

/-- **C7** (amended): the Emitter serializes with object keys in
insertion order, 2-space indentation per level, non-ASCII characters
preserved literally, and no trailing newline: the output of any document
ends in a non-newline character, and every printable or non-ASCII
character (except the quote and the backslash) is emitted unescaped. -/
theorem c7_amended :
    emit (.obj [("café", .str "é"), ("l", .arr [.int 1])]) =
      "\x7b\n  \"café\": \"é\",\n  \"l\": [\n    1\n  ]\n\x7d" ∧
    (∀ (d : Doc) (c : Char), (emit d).data.getLast? = some c → c ≠ '\n') ∧
    (∀ c : Char, 32 ≤ c.toNat → c ≠ '"' → c ≠ '\\' → escapeChar c = [c]) := by
  refine ⟨rfl, ?_, ?_⟩
  · intro d c h
    obtain ⟨c', hc', hne⟩ := emitVal_last 0 d
    have hd : (emit d).data = emitVal 0 d := rfl
    rw [hd, hc'] at h
    cases h
    exact hne
  · intro c h1 h2 h3
    have e8 : c ≠ Char.ofNat 8 := by intro he; subst he; revert h1; decide
    have e12 : c ≠ Char.ofNat 12 := by intro he; subst he; revert h1; decide
    have en : c ≠ '\n' := by intro he; subst he; revert h1; decide
    have e13 : c ≠ Char.ofNat 13 := by intro he; subst he; revert h1; decide
    have et : c ≠ '\t' := by intro he; subst he; revert h1; decide
    have hlt : ¬c.toNat < 32 := by omega
    simp [escapeChar, h2, h3, e8, e12, en, e13, et, hlt]

/-- Witness for C7 at a concrete input: the non-ASCII character `é` is
kept literally by the escaper. -/
theorem c7_witness : escapeChar 'é' = ['é'] :=
  c7_amended.2.2 'é' (by decide) (by decide) (by decide)

/-! ## Success-inversion of the validator -/

/-- Inversion of a successful validation run: all four blocks succeeded
and the report is their concatenation in order. -/
theorem validate_ok_parts {spec : Doc} {errs : List String}
    (h : validate_openapi_structure spec = .ok errs) :
    ∃ e1 e2 e3 e4, checkOpenapi spec = .ok e1 ∧ checkInfo spec = .ok e2 ∧
      checkPaths spec = .ok e3 ∧ componentCheck spec = .ok e4 ∧
      errs = e1 ++ e2 ++ e3 ++ e4 := by
  unfold validate_openapi_structure at h
  cases h1 : checkOpenapi spec with
  | error e => rw [h1] at h; cases h
  | ok e1 =>
    rw [h1] at h
    cases h2 : checkInfo spec with
    | error e => rw [h2] at h; cases h
    | ok e2 =>
      rw [h2] at h
      cases h3 : checkPaths spec with
      | error e => rw [h3] at h; cases h
      | ok e3 =>
        rw [h3] at h
        cases h4 : componentCheck spec with
        | error e => rw [h4] at h; cases h
        | ok e4 =>
          rw [h4] at h
          cases h
          exact ⟨e1, e2, e3, e4, rfl, rfl, rfl, rfl, rfl⟩

/-- Evaluation of the `openapi` check when the value is a string. -/
theorem checkOpenapi_str_lookup {kvs : List (String × Doc)} {s : String}
    (hlook : kvs.lookup "openapi" = some (.str s)) :
    checkOpenapi (.obj kvs) =
      (if strStarts "3." s then .ok []
       else .ok ["Invalid OpenAPI version: " ++ s ++ " (expected 3.x)"]) := by
  have hany := any_key_eq_of_lookup hlook
  unfold checkOpenapi
  simp only [pyIn, hany, pyGet, hlook]

/-- Evaluation of the `openapi` check when the value is not a string:
`AttributeError`. -/
theorem checkOpenapi_nonstr_lookup {kvs : List (String × Doc)} {v : Doc}
    (hlook : kvs.lookup "openapi" = some v) (hns : ∀ s, v ≠ .str s) :
    checkOpenapi (.obj kvs) = .error .attributeError := by
  have hany := any_key_eq_of_lookup hlook
  unfold checkOpenapi
  simp only [pyIn, hany, pyGet, hlook]

/-! ## C2 -/

/-- **C2** (counterexample): for the root mapping with `openapi`
bound to the number `3` (and complete `info` and `paths`),
`validate_openapi_structure` does not return normally: the version check
`spec["openapi"].startswith("3.")` raises `AttributeError`, so no report
containing a version-mismatch error is produced. -/
theorem c2_counterexample :
    validate_openapi_structure (.obj [("openapi", .int 3),
      ("info", .obj [("title", .str "t"), ("version", .str "v")]),
      ("paths", .obj [])]) = .error .attributeError := rfl

/-- **C2** (amended): when the `openapi` value is a *string* scalar not
beginning with `"3."`, validation returns normally and the report
contains the version-mismatch error with the value embedded; for every
*non-string* value (numbers, booleans, null, and containers alike) the
check raises `AttributeError` instead of reporting. -/
theorem c2_amended :
    (∀ (kvs : List (String × Doc)) (s : String) (errs : List String),
      kvs.lookup "openapi" = some (.str s) → strStarts "3." s = false →
      validate_openapi_structure (.obj kvs) = .ok errs →
      ("Invalid OpenAPI version: " ++ s ++ " (expected 3.x)") ∈ errs) ∧
    (∀ (kvs : List (String × Doc)) (v : Doc),
      kvs.lookup "openapi" = some v → (∀ s, v ≠ .str s) →
      validate_openapi_structure (.obj kvs) = .error .attributeError) := by
  constructor
  · intro kvs s errs hlook hpre hok
    obtain ⟨e1, e2, e3, e4, h1, _h2, _h3, _h4, he⟩ := validate_ok_parts hok
    rw [checkOpenapi_str_lookup hlook, hpre] at h1
    simp only [Bool.false_eq_true, if_false] at h1
    cases h1
    subst he
    simp
  · intro kvs v hlook hns
    unfold validate_openapi_structure
    rw [checkOpenapi_nonstr_lookup hlook hns]

/-- Witness for C2 at concrete inputs: `openapi: "2.0"` yields the
embedded-value version error in a normally returned report. -/
theorem c2_witness :
    ("Invalid OpenAPI version: " ++ "2.0" ++ " (expected 3.x)") ∈
      ["Invalid OpenAPI version: 2.0 (expected 3.x)"] :=
  c2_amended.1 [("openapi", .str "2.0"),
      ("info", .obj [("title", .str "t"), ("version", .str "v")]),
      ("paths", .obj [])] "2.0" ["Invalid OpenAPI version: 2.0 (expected 3.x)"]
    rfl rfl rfl

/-! ## C5 -/

/-- **C5**: the Reference Resolver only ever reports dangling references
of the two categories it understands.  Every error it emits comes from a
collected reference bearing the schema marker head or the parameter
marker head (with the corresponding message), and a reference with any
other shape contributes nothing to the report. -/
theorem c5_resolver_scope :
    (∀ (refs schemas params : List String) (e : String),
      e ∈ refErrors refs schemas params →
      ∃ r, r ∈ refs ∧
        ((strStarts "#/components/schemas/" r = true ∧
          e = "Undefined schema reference: " ++ r) ∨
         (strStarts "#/components/parameters/" r = true ∧
          e = "Undefined parameter reference: " ++ r))) ∧
    (∀ (r : String) (schemas params : List String),
      strStarts "#/components/schemas/" r = false →
      strStarts "#/components/parameters/" r = false →
      refErrorOf r schemas params = []) := by
  constructor
  · intro refs schemas params e he
    induction refs with
    | nil => simp [refErrors] at he
    | cons r rest ih =>
      rw [refErrors] at he
      rcases List.mem_append.1 he with h | h
      · refine ⟨r, List.mem_cons_self r rest, ?_⟩
        unfold refErrorOf at h
        by_cases h1 : strStarts "#/components/schemas/" r = true
        · rw [if_pos h1] at h
          split at h
          · cases h
          · left
            exact ⟨h1, (List.mem_singleton.1 h)⟩
        · rw [if_neg h1] at h
          by_cases h2 : strStarts "#/components/parameters/" r = true
          · rw [if_pos h2] at h
            split at h
            · cases h
            · right
              exact ⟨h2, (List.mem_singleton.1 h)⟩
          · rw [if_neg h2] at h
            cases h
      · obtain ⟨r', hr', hor⟩ := ih h
        exact ⟨r', List.mem_cons_of_mem _ hr', hor⟩
  · intro r schemas params h1 h2
    simp [refErrorOf, h1, h2]

/-- Witness for C5 at a concrete input: the only error produced for a
single dangling schema reference comes from that reference with the
schema message. -/
theorem c5_witness :
    ∃ r, r ∈ ["#/components/schemas/X"] ∧
      ((strStarts "#/components/schemas/" r = true ∧
        "Undefined schema reference: #/components/schemas/X" =
          "Undefined schema reference: " ++ r) ∨
       (strStarts "#/components/parameters/" r = true ∧
        "Undefined schema reference: #/components/schemas/X" =
          "Undefined parameter reference: " ++ r)) :=
  c5_resolver_scope.1 ["#/components/schemas/X"] [] []
    "Undefined schema reference: #/components/schemas/X"
    (by rw [show refErrors ["#/components/schemas/X"] [] [] =
        ["Undefined schema reference: #/components/schemas/X"] from rfl]
        exact List.mem_singleton.2 rfl)

/-! ## C6 -/

/-- Member-wise induction principle for `Doc` (strong induction on
size). -/
theorem doc_induction (P : Doc → Prop)
    (hstr : ∀ s, P (.str s)) (hint : ∀ n, P (.int n))
    (hbool : ∀ b, P (.bool b)) (hnull : P .null)
    (harr : ∀ xs, (∀ x ∈ xs, P x) → P (.arr xs))
    (hobj : ∀ kvs, (∀ p ∈ kvs, P p.2) → P (.obj kvs)) :
    ∀ d, P d := by
  have H : ∀ n (d : Doc), sizeOf d ≤ n → P d := by
    intro n
    induction n with
    | zero =>
      intro d hd
      cases d <;> simp at hd
    | succ n ih =>
      intro d hd
      cases d with
      | str s => exact hstr s
      | int k => exact hint k
      | bool b => exact hbool b
      | null => exact hnull
      | arr xs =>
        refine harr xs (fun x hx => ih x ?_)
        have h1 := List.sizeOf_lt_of_mem hx
        simp only [Doc.arr.sizeOf_spec] at hd
        omega
      | obj kvs =>
        refine hobj kvs (fun p hp => ih p.2 ?_)
        have h1 := List.sizeOf_lt_of_mem hp
        obtain ⟨a, b⟩ := p
        simp only [Doc.obj.sizeOf_spec] at hd
        simp only [Prod.mk.sizeOf_spec] at h1
        simp only
        omega
  exact fun d => H (sizeOf d) d (Nat.le_refl _)

/-- The collector of the code agrees with the spec-side collector on
every document. -/
theorem findRefs_eq_spec : ∀ d, find_refs d = collectRefsSpec d := by
  refine doc_induction _ (fun _ => rfl) (fun _ => rfl) (fun _ => rfl) rfl ?_ ?_
  · intro xs ih
    show findRefsItems xs = collectItemsSpec xs
    induction xs with
    | nil => rfl
    | cons x rest ihr =>
      rw [findRefsItems, collectItemsSpec, ih x (List.mem_cons_self x rest),
        ihr (fun y hy => ih y (List.mem_cons_of_mem _ hy))]
  · intro kvs ih
    show findRefsEntries kvs = collectEntriesSpec kvs
    induction kvs with
    | nil => rfl
    | cons kv rest ihr =>
      obtain ⟨k, v⟩ := kv
      have hv : find_refs v = collectRefsSpec v := ih (k, v) (List.mem_cons_self _ _)
      have hr : findRefsEntries rest = collectEntriesSpec rest :=
        ihr (fun p hp => ih p (List.mem_cons_of_mem _ hp))
      by_cases hk : k = "$ref"
      · subst hk
        cases v <;> simp [findRefsEntries, collectEntriesSpec, collectRefsSpec, hv, hr]
      · have hbeq : (k == "$ref") = false := by
          rw [beq_eq_false_iff_ne]
          exact hk
        simp [findRefsEntries, collectEntriesSpec, hbeq, hv, hr]

/-- **C6**: `find_refs` emits exactly the string values of `"$ref"`
entries, at arbitrary depth (including through nested sequences), one
occurrence per occurrence, in depth-first mapping-key-then-sequence
order — it coincides with the collector transcribed from the spec's
words on every finite document (and, being a total Lean function, it
terminates).  A reference three levels deep inside nested arrays
surfaces, and duplicates are preserved. -/
theorem c6_collector_refinement :
    (∀ d, find_refs d = collectRefsSpec d) ∧
    find_refs (.obj [("oneOf", .arr [.arr [.arr [.obj [("$ref",
        .str "#/components/schemas/Deep")]]]])]) =
      ["#/components/schemas/Deep"] ∧
    find_refs (.arr [.obj [("$ref", .str "#/a")], .obj [("$ref", .str "#/a")]]) =
      ["#/a", "#/a"] :=
  ⟨findRefs_eq_spec, rfl, rfl⟩

/-! ## C1 -/

/-- The schema-reference error message always begins with `U`. -/
theorem target_head (r : String) :
    ("Undefined schema reference: " ++ r).data[0]? = some 'U' := by
  rw [String.data_append, List.getElem?_append_left (by decide)]
  decide

/-- The parameter message and the schema message differ at position 10
(`p` against `s`), whatever the embedded references are. -/
theorem param_ne_schema (r r' : String) :
    "Undefined parameter reference: " ++ r ≠ "Undefined schema reference: " ++ r' := by
  apply str_ne_of_get_ne 10
  have h1 : ("Undefined parameter reference: ".data ++ r.data)[10]? =
      "Undefined parameter reference: ".data[10]? :=
    List.getElem?_append_left (by decide)
  have h2 : ("Undefined schema reference: ".data ++ r'.data)[10]? =
      "Undefined schema reference: ".data[10]? :=
    List.getElem?_append_left (by decide)
  rw [String.data_append, String.data_append, h1, h2]
  decide

/-- The version-mismatch message always begins with `I`. -/
theorem ver_msg_head (s : String) :
    ("Invalid OpenAPI version: " ++ s ++ " (expected 3.x)").data[0]? = some 'I' := by
  rw [String.data_append, String.data_append]
  rw [List.getElem?_append_left (by simp)]
  rw [List.getElem?_append_left (by decide)]
  decide

/-- Inversion of a successful `openapi` check: the produced list is
empty, the missing-field message, or a version-mismatch message. -/
theorem checkOpenapi_ok_shape {spec : Doc} {es : List String}
    (h : checkOpenapi spec = .ok es) :
    es = [] ∨ es = ["Missing required field: openapi"] ∨
      ∃ s, es = ["Invalid OpenAPI version: " ++ s ++ " (expected 3.x)"] := by
  unfold checkOpenapi at h
  cases h0 : pyIn "openapi" spec with
  | error err => rw [h0] at h; cases h
  | ok b =>
    rw [h0] at h
    cases b with
    | false => cases h; right; left; rfl
    | true =>
      cases h1 : pyGet spec "openapi" with
      | error err => rw [h1] at h; cases h
      | ok v =>
        rw [h1] at h
        cases v with
        | str s =>
          by_cases hv : strStarts "3." s = true
          · simp only [hv, if_true] at h
            cases h
            left
            rfl
          · simp only [hv, if_false, Bool.false_eq_true] at h
            cases h
            right; right
            exact ⟨s, rfl⟩
        | int n => cases h
        | bool b => cases h
        | null => cases h
        | arr xs => cases h
        | obj okvs => cases h

/-- Inversion of a successful `info` check: every produced message
starts with `M`. -/
theorem checkInfo_ok_heads {spec : Doc} {es : List String}
    (h : checkInfo spec = .ok es) : ∀ e ∈ es, e.data[0]? = some 'M' := by
  unfold checkInfo at h
  split at h
  · cases h
  · cases h
    intro e he
    rw [List.mem_singleton.1 he]
    rfl
  · split at h
    · cases h
    · split at h
      · cases h
      · split at h
        · cases h
        · cases h
          intro e he
          rcases List.mem_append.1 he with hm | hm
          all_goals split at hm
          · cases hm
          · rw [List.mem_singleton.1 hm]
            rfl
          · cases hm
          · rw [List.mem_singleton.1 hm]
            rfl

/-- Inversion of a successful `paths` check: empty or the
missing-field message. -/
theorem checkPaths_ok_shape {spec : Doc} {es : List String}
    (h : checkPaths spec = .ok es) :
    es = [] ∨ es = ["Missing required field: paths"] := by
  unfold checkPaths at h
  cases h0 : pyIn "paths" spec with
  | error err => rw [h0] at h; cases h
  | ok b =>
    rw [h0] at h
    cases b with
    | false => cases h; right; rfl
    | true => cases h; left; rfl

/-- A list whose members never start with `U` contains no
schema-reference error. -/
theorem count_target_zero {es : List String} {r0 : String}
    (h : ∀ e ∈ es, e.data[0]? ≠ some 'U') :
    es.count ("Undefined schema reference: " ++ r0) = 0 := by
  rw [List.count_eq_zero]
  intro hmem
  exact h _ hmem (target_head r0)

/-- The `openapi` check contributes no schema-reference error. -/
theorem checkOpenapi_count_zero {spec : Doc} {es : List String} (r0 : String)
    (h : checkOpenapi spec = .ok es) :
    es.count ("Undefined schema reference: " ++ r0) = 0 := by
  apply count_target_zero
  intro e he
  rcases checkOpenapi_ok_shape h with rfl | rfl | ⟨s, rfl⟩
  · cases he
  · rw [List.mem_singleton.1 he]
    decide
  · rw [List.mem_singleton.1 he, ver_msg_head]
    decide

/-- The `info` check contributes no schema-reference error. -/
theorem checkInfo_count_zero {spec : Doc} {es : List String} (r0 : String)
    (h : checkInfo spec = .ok es) :
    es.count ("Undefined schema reference: " ++ r0) = 0 := by
  apply count_target_zero
  intro e he
  rw [checkInfo_ok_heads h e he]
  decide

/-- The `paths` check contributes no schema-reference error. -/
theorem checkPaths_count_zero {spec : Doc} {es : List String} (r0 : String)
    (h : checkPaths spec = .ok es) :
    es.count ("Undefined schema reference: " ++ r0) = 0 := by
  apply count_target_zero
  intro e he
  rcases checkPaths_ok_shape h with rfl | rfl
  · cases he
  · rw [List.mem_singleton.1 he]
    decide

/-- Registry construction for a category whose mapping is present. -/
theorem keysIfPresent_of_lookup_obj {ckvs skvs : List (String × Doc)} {key : String}
    (hs : ckvs.lookup key = some (.obj skvs)) :
    keysIfPresent (.obj ckvs) key = .ok (skvs.map Prod.fst) := by
  unfold keysIfPresent
  simp only [pyIn, any_key_eq_of_lookup hs, pyGet, hs, pyKeys]

/-- Evaluation of the components block when `components`,
`components.schemas` and `paths` are present: the produced errors are
the resolver's output on the collected references, against the schema
registry and some parameter registry. -/
theorem componentCheck_eval {kvs ckvs skvs : List (String × Doc)} {pths : Doc}
    {e4 : List String}
    (hc : kvs.lookup "components" = some (.obj ckvs))
    (hs : ckvs.lookup "schemas" = some (.obj skvs))
    (hp : kvs.lookup "paths" = some pths)
    (h4 : componentCheck (.obj kvs) = .ok e4) :
    ∃ params, e4 = refErrors (find_refs pths) (skvs.map Prod.fst) params := by
  unfold componentCheck at h4
  simp only [show pyIn "components" (.obj kvs) = .ok true by
      simp [pyIn, any_key_eq_of_lookup hc],
    show pyGet (.obj kvs) "components" = .ok (.obj ckvs) by simp [pyGet, hc],
    keysIfPresent_of_lookup_obj hs] at h4
  cases hq : keysIfPresent (.obj ckvs) "parameters" with
  | error err => rw [hq] at h4; simp at h4
  | ok params =>
    rw [hq] at h4
    cases hsec : keysIfPresent (.obj ckvs) "securitySchemes" with
    | error err => rw [hsec] at h4; simp at h4
    | ok _sec =>
      rw [hsec] at h4
      simp only [show pyIn "paths" (.obj kvs) = .ok true by
          simp [pyIn, any_key_eq_of_lookup hp],
        show pyGet (.obj kvs) "paths" = .ok pths by simp [pyGet, hp]] at h4
      cases h4
      exact ⟨params, rfl⟩

/-- The schema marker head, split on `/`, ends exactly before the name. -/
theorem lastSeg_schema_ref {X : String} (hX : '/' ∉ X.data) :
    lastSeg ("#/components/schemas/" ++ X) = X :=
  lastSeg_append _ _ ⟨"#/components/schemas".data, rfl⟩ hX

/-- Per-reference count of the schema error for the name `X`: one when
the reference is exactly the schema reference to `X` and `X` is
undeclared, zero otherwise. -/
theorem refErrorOf_count {X : String} (r : String) (s p : List String)
    (hX : '/' ∉ X.data) :
    (refErrorOf r s p).count
        ("Undefined schema reference: " ++ ("#/components/schemas/" ++ X)) =
      if r = "#/components/schemas/" ++ X then (if X ∈ s then 0 else 1) else 0 := by
  by_cases hrr : r = "#/components/schemas/" ++ X
  · subst hrr
    unfold refErrorOf
    rw [if_pos (strStarts_append _ _), lastSeg_schema_ref hX]
    by_cases hmem : X ∈ s
    · have hcont : s.contains X = true := by
        simp [List.contains_eq_any_beq, List.any_eq_true, beq_iff_eq]
        exact hmem
      rw [if_pos hcont]
      simp [hmem]
    · have hcont : ¬(s.contains X = true) := by
        simp [List.contains_eq_any_beq, List.any_eq_true, beq_iff_eq]
        exact hmem
      rw [if_neg hcont]
      simp [hmem, List.count_singleton]
  · rw [if_neg hrr]
    unfold refErrorOf
    by_cases h1 : strStarts "#/components/schemas/" r = true
    · rw [if_pos h1]
      split
      · exact List.count_nil _
      · rw [List.count_singleton]
        have hne : ¬("Undefined schema reference: " ++ r ==
            "Undefined schema reference: " ++ ("#/components/schemas/" ++ X)) = true := by
          rw [beq_iff_eq]
          intro hcontra
          exact hrr (strAppend_cancel_left hcontra)
        simp only [hne, if_false]
        simp
    · rw [if_neg h1]
      by_cases h2 : strStarts "#/components/parameters/" r = true
      · rw [if_pos h2]
        split
        · exact List.count_nil _
        · rw [List.count_singleton]
          have hne : ¬("Undefined parameter reference: " ++ r ==
              "Undefined schema reference: " ++ ("#/components/schemas/" ++ X)) = true := by
            rw [beq_iff_eq]
            exact param_ne_schema r _
          simp only [hne, if_false]
          simp
      · rw [if_neg h2]
        exact List.count_nil _

/-- The resolver's schema-error count for the name `X` over a whole
reference list: the number of occurrences of the schema reference to
`X` when `X` is undeclared, zero when `X` is declared. -/
theorem refErrors_count (refs s p : List String) (X : String) (hX : '/' ∉ X.data) :
    (refErrors refs s p).count
        ("Undefined schema reference: " ++ ("#/components/schemas/" ++ X)) =
      if X ∈ s then 0 else refs.count ("#/components/schemas/" ++ X) := by
  induction refs with
  | nil =>
    rw [refErrors]
    simp only [List.count_nil]
    split <;> rfl
  | cons r rest ih =>
    rw [refErrors, List.count_append, refErrorOf_count r s p hX, ih]
    rw [List.count_cons]
    by_cases hmem : X ∈ s
    · by_cases hrr : r = "#/components/schemas/" ++ X <;> simp [hmem, hrr]
    · by_cases hrr : r = "#/components/schemas/" ++ X
      · simp [hmem, hrr]
        omega
      · simp [hmem, hrr]

/-- **C1** (amended): in a root Mapping whose `components` value is a
Mapping with a `schemas` Mapping and which has a `paths` entry, whenever
validation returns a report, the number of "Undefined schema reference"
errors naming `X` (a name without slashes) equals the number of
occurrences of the reference `#/components/schemas/X` collected under
`paths` when `X` is not a key of `components.schemas` — in particular
exactly one for a unique occurrence — and is zero (the error is absent)
when `X` is a key of `components.schemas`. -/
theorem c1_amended {kvs ckvs skvs : List (String × Doc)} {pths : Doc}
    {errs : List String} (X : String)
    (hc : kvs.lookup "components" = some (.obj ckvs))
    (hs : ckvs.lookup "schemas" = some (.obj skvs))
    (hp : kvs.lookup "paths" = some pths)
    (hX : '/' ∉ X.data)
    (hok : validate_openapi_structure (.obj kvs) = .ok errs) :
    errs.count ("Undefined schema reference: " ++ ("#/components/schemas/" ++ X)) =
      if X ∈ skvs.map Prod.fst then 0
      else (find_refs pths).count ("#/components/schemas/" ++ X) := by
  obtain ⟨e1, e2, e3, e4, h1, h2, h3, h4, he⟩ := validate_ok_parts hok
  obtain ⟨params, he4⟩ := componentCheck_eval hc hs hp h4
  subst he he4
  rw [List.count_append, List.count_append, List.count_append,
    checkOpenapi_count_zero _ h1, checkInfo_count_zero _ h2,
    checkPaths_count_zero _ h3, refErrors_count _ _ _ _ hX]
  simp

/-- **C1** (counterexample): a document whose `paths` contains the same
dangling reference `#/components/schemas/X` twice produces *two*
"Undefined schema reference" errors mentioning `X`, not exactly one. -/
theorem c1_counterexample :
    validate_openapi_structure (.obj [("openapi", .str "3.0.0"),
      ("info", .obj [("title", .str "t"), ("version", .str "v")]),
      ("paths", .obj [("/a", .obj [("$ref", .str "#/components/schemas/X")]),
                      ("/b", .obj [("$ref", .str "#/components/schemas/X")])]),
      ("components", .obj [("schemas", .obj [])])]) =
    .ok ["Undefined schema reference: #/components/schemas/X",
         "Undefined schema reference: #/components/schemas/X"] := rfl

/-- Witness for C1 at concrete inputs: a single dangling occurrence
yields count one; the same name declared yields count zero. -/
theorem c1_witness :
    (["Undefined schema reference: #/components/schemas/X"].count
      ("Undefined schema reference: " ++ ("#/components/schemas/" ++ "X")) =
      if "X" ∈ (([] : List (String × Doc)).map Prod.fst) then 0
      else (find_refs (.obj [("/a", .obj [("$ref",
        .str "#/components/schemas/X")])])).count ("#/components/schemas/" ++ "X")) ∧
    (([] : List String).count
      ("Undefined schema reference: " ++ ("#/components/schemas/" ++ "X")) =
      if "X" ∈ ([("X", Doc.obj [])].map Prod.fst) then 0
      else (find_refs (.obj [("/a", .obj [("$ref",
        .str "#/components/schemas/X")])])).count ("#/components/schemas/" ++ "X")) := by
  constructor
  · exact @c1_amended
      [("openapi", .str "3.0.0"),
       ("info", .obj [("title", .str "t"), ("version", .str "v")]),
       ("paths", .obj [("/a", .obj [("$ref", .str "#/components/schemas/X")])]),
       ("components", .obj [("schemas", .obj [])])]
      [("schemas", .obj [])] []
      (.obj [("/a", .obj [("$ref", .str "#/components/schemas/X")])])
      ["Undefined schema reference: #/components/schemas/X"]
      "X" rfl rfl rfl (by decide) rfl
  · exact @c1_amended
      [("openapi", .str "3.0.0"),
       ("info", .obj [("title", .str "t"), ("version", .str "v")]),
       ("paths", .obj [("/a", .obj [("$ref", .str "#/components/schemas/X")])]),
       ("components", .obj [("schemas", .obj [("X", Doc.obj [])])])]
      [("schemas", .obj [("X", Doc.obj [])])] [("X", Doc.obj [])]
      (.obj [("/a", .obj [("$ref", .str "#/components/schemas/X")])])
      [] "X" rfl rfl rfl (by decide) rfl

/-! ## C8 -/

/-- Membership scan of the tag set (all-string case): Python `==`
against string elements is string equality. -/
theorem strset_mem (t : String) (acc : List String) :
    ((acc.map Doc.str).any (pyScalarEq (.str t))) = decide (t ∈ acc) := by
  induction acc with
  | nil => rfl
  | cons a rest ih =>
    by_cases h1 : t = a <;> by_cases h2 : t ∈ rest <;>
      simp [List.any_cons, pyScalarEq, ih, List.mem_cons, h1, h2]

/-- `set.add` of a string tag mirrors `strIns`. -/
theorem setAdd_str (acc : List String) (t : String) :
    setAdd (acc.map Doc.str) (.str t) = .ok ((strIns acc t).map Doc.str) := by
  unfold setAdd strIns
  simp only [isHashable, if_true, strset_mem]
  by_cases h : t ∈ acc <;> simp [h]

/-- The tag loop over a string array mirrors `strFoldIns`. -/
theorem addTags_str (acc ts : List String) :
    addTags (acc.map Doc.str) (ts.map Doc.str) =
      .ok ((strFoldIns acc ts).map Doc.str) := by
  induction ts generalizing acc with
  | nil => rfl
  | cons t rest ih =>
    simp only [List.map_cons, addTags, setAdd_str, strFoldIns]
    exact ih (strIns acc t)

/-- Folding insertions over concatenated lists composes. -/
theorem strFoldIns_append (acc l1 l2 : List String) :
    strFoldIns acc (l1 ++ l2) = strFoldIns (strFoldIns acc l1) l2 := by
  induction l1 generalizing acc with
  | nil => rfl
  | cons t rest ih =>
    show strFoldIns (strIns acc t) (rest ++ l2) =
      strFoldIns (strFoldIns (strIns acc t) rest) l2
    exact ih (strIns acc t)

/-- The accumulated tag set stays duplicate-free. -/
theorem strFoldIns_nodup (l : List String) : ∀ acc, acc.Nodup → (strFoldIns acc l).Nodup := by
  induction l with
  | nil => exact fun acc h => h
  | cons t rest ih =>
    intro acc h
    refine ih _ ?_
    unfold strIns
    by_cases hm : t ∈ acc
    · simpa [hm] using h
    · simp [hm, List.nodup_append, h]

/-- The accumulated tag set holds exactly the seen elements. -/
theorem strFoldIns_toFinset (l : List String) :
    ∀ acc, (strFoldIns acc l).toFinset = acc.toFinset ∪ l.toFinset := by
  induction l with
  | nil => intro acc; simp [strFoldIns]
  | cons t rest ih =>
    intro acc
    rw [strFoldIns, ih]
    unfold strIns
    ext x
    by_cases hm : t ∈ acc
    · simp [hm, List.toFinset_append, List.mem_toFinset, List.mem_cons]
    · simp [hm, List.toFinset_append, List.mem_toFinset, List.mem_cons]
      tauto

/-- The final distinct-tag count is the size of the distinct union of
the tag lists. -/
theorem strFoldIns_length (l : List String) :
    (strFoldIns [] l).length = l.toFinset.card := by
  have hnd : (strFoldIns [] l).Nodup := strFoldIns_nodup l [] (by simp)
  have hfin : (strFoldIns [] l).toFinset = l.toFinset := by
    rw [strFoldIns_toFinset]
    simp
  rw [← hfin, List.card_toFinset, hnd.dedup]

/-- One method-loop step on an operation carrying only a string `tags`
array: the operation counter advances and the tag set folds the array in. -/
theorem opStep_method (ops : Nat) (acc t : List String) (m : String)
    (hm : httpMethods.contains (pyLower m) = true) :
    opStep ops (acc.map Doc.str) m (mkOp t) =
      .ok (ops + 1, (strFoldIns acc t).map Doc.str) := by
  unfold opStep mkOp
  simp only [hm, if_true]
  simp only [List.any_cons, List.any_nil, show ("tags" == "tags") = true from rfl,
    Bool.true_or, if_true]
  simp only [pyGet, List.lookup, show ("tags" == "tags") = true from rfl, pyIter]
  rw [addTags_str acc t]

/-- The operation counter of one method step: incremented exactly when
the key case-insensitively matches an HTTP method name. -/
theorem opStep_ops {ops : Nat} {tags : List Doc} {m : String} {op : Doc}
    {ops2 : Nat} {tags2 : List Doc}
    (h : opStep ops tags m op = .ok (ops2, tags2)) :
    ops2 = if httpMethods.contains (pyLower m) then ops + 1 else ops := by
  unfold opStep at h
  by_cases hcont : httpMethods.contains (pyLower m) = true
  · rw [if_pos hcont]
    simp only [hcont, if_true] at h
    cases op with
    | obj okvs =>
      by_cases ht : (okvs.any fun p => p.1 == "tags") = true
      · simp only [ht, if_true] at h
        split at h
        · cases h
        · split at h
          · cases h
          · split at h
            · cases h
            · cases h
              rfl
      · have hf : (okvs.any fun p => p.1 == "tags") = false := by
          cases hc : (okvs.any fun p => p.1 == "tags")
          · rfl
          · exact absurd hc ht
        simp only [hf, Bool.false_eq_true, if_false] at h
        cases h
        rfl
    | str s => cases h; rfl
    | int n => cases h; rfl
    | bool b => cases h; rfl
    | null => cases h; rfl
    | arr xs => cases h; rfl
  · rw [if_neg hcont]
    have hf : httpMethods.contains (pyLower m) = false := by
      cases hc : httpMethods.contains (pyLower m)
      · rfl
      · exact absurd hc hcont
    simp only [hf, Bool.false_eq_true, if_false] at h
    cases h
    rfl

/-- When the method loop returns, the operation count is the start value
plus the number of keys that case-insensitively match an HTTP method. -/
theorem methodsLoop_ops (ms : List (String × Doc)) :
    ∀ (ops : Nat) (tags : List Doc) (r : Nat × List Doc),
      methodsLoop ms ops tags = .ok r →
      r.1 = ops + (ms.filter fun p => httpMethods.contains (pyLower p.1)).length := by
  induction ms with
  | nil =>
    intro ops tags r h
    cases h
    simp
  | cons p rest ih =>
    intro ops tags r h
    obtain ⟨m, op⟩ := p
    rw [methodsLoop] at h
    cases ho : opStep ops tags m op with
    | error e => rw [ho] at h; cases h
    | ok q =>
      rw [ho] at h
      obtain ⟨ops2, tags2⟩ := q
      have hop := opStep_ops ho
      have hr := ih ops2 tags2 r h
      rw [hr, List.filter_cons]
      by_cases hcont : pyLower m ∈ httpMethods
      · simp [hcont] at hop ⊢
        omega
      · simp [hcont] at hop ⊢
        omega

/-- Scenario evaluation for C8: two paths, one exposing `get` and
`post`, the other only `delete`, each operation tagged. -/
theorem c8_scenario (t1 t2 t3 : List String) :
    count_elements (c8spec t1 t2 t3) =
      .ok ⟨2, 3, 0, 0, (t1 ++ t2 ++ t3).toFinset.card⟩ := by
  have o1 : opStep 0 [] "get" (mkOp t1) = .ok (1, (strFoldIns [] t1).map Doc.str) :=
    opStep_method 0 [] t1 "get" (by decide)
  have o2 : opStep 1 ((strFoldIns [] t1).map Doc.str) "post" (mkOp t2) =
      .ok (2, (strFoldIns (strFoldIns [] t1) t2).map Doc.str) :=
    opStep_method 1 (strFoldIns [] t1) t2 "post" (by decide)
  have o3 : opStep 2 ((strFoldIns (strFoldIns [] t1) t2).map Doc.str) "delete" (mkOp t3) =
      .ok (3, (strFoldIns (strFoldIns (strFoldIns [] t1) t2) t3).map Doc.str) :=
    opStep_method 2 (strFoldIns (strFoldIns [] t1) t2) t3 "delete" (by decide)
  have hm1 : methodsLoop [("get", mkOp t1), ("post", mkOp t2)] 0 [] =
      .ok (2, (strFoldIns (strFoldIns [] t1) t2).map Doc.str) := by
    simp only [methodsLoop, o1, o2]
  have hm2 : methodsLoop [("delete", mkOp t3)] 2
      ((strFoldIns (strFoldIns [] t1) t2).map Doc.str) =
      .ok (3, (strFoldIns (strFoldIns (strFoldIns [] t1) t2) t3).map Doc.str) := by
    simp only [methodsLoop, o3]
  have hpl : pathsLoop [("/p1", .obj [("get", mkOp t1), ("post", mkOp t2)]),
      ("/p2", .obj [("delete", mkOp t3)])] 0 [] =
      .ok (3, (strFoldIns (strFoldIns (strFoldIns [] t1) t2) t3).map Doc.str) := by
    simp only [pathsLoop, hm1, hm2]
  unfold count_elements pathsPart componentsPart c8spec
  simp only [pyIn, List.any_cons, List.any_nil, pyGet, List.lookup, pyLen, pyItems]
  simp only [show ("paths" == "paths") = true from rfl,
    show ("paths" == "components") = false from rfl, Bool.or_false, if_true,
    Bool.false_eq_true, if_false]
  simp only [hpl]
  simp only [List.length_cons, List.length_nil, List.length_map]
  rw [← strFoldIns_append, ← strFoldIns_append, strFoldIns_length]
  simp [List.append_assoc]

/-- **C8**: `count_elements` counts one operation per path-entry key
that case-insensitively matches one of the seven HTTP method names, and
counts distinct tags; for the two-path scenario (`get`+`post` on one
path, `delete` on the other) the path count is 2, the operation count is
3, and the tag count is the size of the distinct union of the three
`tags` arrays. -/
theorem c8_count_elements :
    (∀ t1 t2 t3 : List String,
      count_elements (c8spec t1 t2 t3) =
        .ok ⟨2, 3, 0, 0, (t1 ++ t2 ++ t3).toFinset.card⟩) ∧
    (∀ (ms : List (String × Doc)) (ops : Nat) (tags : List Doc) (r : Nat × List Doc),
      methodsLoop ms ops tags = .ok r →
      r.1 = ops + (ms.filter fun p => httpMethods.contains (pyLower p.1)).length) :=
  ⟨c8_scenario, methodsLoop_ops⟩

/-- Witness for C8 at concrete inputs: an upper-case `GET` key counts
as an operation, an unknown key does not. -/
theorem c8_witness :
    ((1 : Nat), ([] : List Doc)).1 = 0 +
      ([("GET", Doc.null), ("x-ext", Doc.null)].filter
        fun p => httpMethods.contains (pyLower p.1)).length :=
  c8_count_elements.2 [("GET", Doc.null), ("x-ext", Doc.null)] 0 [] (1, []) rfl

/-! ## C9: whitespace and shape lemmas -/

/-- `skipWs` keeps a list starting with a non-whitespace character. -/
theorem skipWs_cons_not {c : Char} {l : List Char} (h : isWs c = false) :
    skipWs (c :: l) = c :: l := by
  simp [skipWs, h]

/-- `skipWs` drops a whitespace block. -/
theorem skipWs_append_ws {ws : List Char} (h : allWs ws) (l : List Char) :
    skipWs (ws ++ l) = skipWs l := by
  induction ws with
  | nil => rfl
  | cons c cs ih =>
    rw [List.cons_append, skipWs, if_pos (h c (List.mem_cons_self c cs))]
    exact ih (fun x hx => h x (List.mem_cons_of_mem _ hx))

/-- The newline-and-indent block is all whitespace. -/
theorem allWs_nlIndent (lvl : Nat) : allWs (nlIndent lvl) := by
  intro c hc
  rcases List.mem_cons.1 hc with rfl | hc
  · rfl
  · rw [List.eq_of_mem_replicate hc]
    rfl

/-- Digit characters pass `isDigit`. -/
theorem decDigit_isDigit : ∀ k < 10, (decDigit k).isDigit = true := by decide

/-- Digit characters decode back to their value. -/
theorem decDigit_val : ∀ k < 10, (decDigit k).toNat - 48 = k := by decide

/-- The digits of a natural number: non-empty, starting with a digit. -/
theorem natRepr_shape (n : Nat) :
    ∃ d ds, natRepr n = d :: ds ∧ d.isDigit = true := by
  induction n using Nat.strong_induction_on with
  | _ n ih =>
    rw [natRepr_eq]
    by_cases h10 : n < 10
    · exact ⟨decDigit n, [], by simp [h10], decDigit_isDigit n h10⟩
    · obtain ⟨d, ds, hrep, hdig⟩ := ih (n / 10) (Nat.div_lt_self (by omega) (by omega))
      exact ⟨d, ds ++ [decDigit (n % 10)], by simp [h10, hrep], hdig⟩

/-- A digit character differs from every non-digit character. -/
theorem digit_ne {c x : Char} (h : c.isDigit = true) (hx : x.isDigit = false) :
    c ≠ x := by
  intro he
  rw [he] at h
  rw [h] at hx
  cases hx

/-- A whitespace fact about digit characters, shared by the head lemma. -/
theorem digit_not_ws0 {c : Char} (h : c.isDigit = true) : isWs c = false := by
  cases hw : isWs c
  · rfl
  · exfalso
    simp only [isWs, Bool.or_eq_true, decide_eq_true_eq] at hw
    rcases hw with ((rfl | rfl) | rfl) | rfl
    · exact absurd h (by decide)
    · exact absurd h (by decide)
    · exact absurd h (by decide)
    · exact absurd h (by decide)

/-- Every serialized value starts with a non-whitespace character that
closes no container. -/
theorem emit_head (lvl : Nat) (d : Doc) :
    ∃ c cs, emitVal lvl d = c :: cs ∧ isWs c = false ∧ c ≠ ']' ∧ c ≠ '\x7d' := by
  cases d with
  | null => exact ⟨'n', _, rfl, rfl, by decide, by decide⟩
  | bool b => cases b with
    | true => exact ⟨'t', _, rfl, rfl, by decide, by decide⟩
    | false => exact ⟨'f', _, rfl, rfl, by decide, by decide⟩
  | str s => exact ⟨'"', _, rfl, rfl, by decide, by decide⟩
  | int n =>
    show ∃ c cs, intRepr n = c :: cs ∧ _
    unfold intRepr
    by_cases hn : n < 0 <;> simp only [hn, if_true, if_false]
    · exact ⟨'-', _, rfl, rfl, by decide, by decide⟩
    · obtain ⟨d, ds, hrep, hdig⟩ := natRepr_shape n.toNat
      exact ⟨d, ds, hrep, digit_not_ws0 hdig, digit_ne hdig (by decide),
        digit_ne hdig (by decide)⟩
  | arr xs => cases xs with
    | nil => exact ⟨'[', _, rfl, rfl, by decide, by decide⟩
    | cons x rest => exact ⟨'[', _, rfl, rfl, by decide, by decide⟩
  | obj kvs => cases kvs with
    | nil => exact ⟨'\x7b', _, rfl, rfl, by decide, by decide⟩
    | cons kv rest => exact ⟨'\x7b', _, rfl, rfl, by decide, by decide⟩

/-- Skipping whitespace before a serialized value leaves it intact. -/
theorem skipWs_ws_emit {ws : List Char} (h : allWs ws) (lvl : Nat) (d : Doc)
    (rest : List Char) :
    skipWs (ws ++ (emitVal lvl d ++ rest)) = emitVal lvl d ++ rest := by
  rw [skipWs_append_ws h]
  obtain ⟨c, cs, hrep, hws, _, _⟩ := emit_head lvl d
  rw [hrep, List.cons_append, skipWs_cons_not hws]

/-! ## C9: string escape round trip -/

/-- Hex digits invert. -/
theorem hexVal_hexDigit : ∀ k < 16, hexVal (hexDigit k) = some k := by decide

/-- Escapes are non-empty. -/
theorem escapeChar_length_pos (c : Char) : 1 ≤ (escapeChar c).length := by
  unfold escapeChar
  repeat' split
  all_goals simp

/-- Escaping never shrinks a string. -/
theorem escapeList_length_ge (s : List Char) : s.length ≤ (escapeList s).length := by
  induction s with
  | nil => simp [escapeList]
  | cons c cs ih =>
    rw [escapeList, List.length_append]
    have := escapeChar_length_pos c
    simp only [List.length_cons]
    omega

/-- One-step equation of the string reader on a cons cell. -/
theorem readStringBody_cons (f : Nat) (c : Char) (cs : List Char) :
    readStringBody (f + 1) (c :: cs) =
      (if c = '"' then some ([], cs)
       else if c = '\\' then
         match decodeEscape cs with
         | none => none
         | some (ch, rest) =>
           match readStringBody f rest with
           | none => none
           | some (s, r2) => some (ch :: s, r2)
       else
         match readStringBody f cs with
         | none => none
         | some (s, r2) => some (c :: s, r2)) := rfl

/-- Reading back an escaped string body stops at the closing quote and
returns the original characters. -/
theorem readStringBody_escape (s : List Char) :
    ∀ fuel rest, s.length < fuel →
    readStringBody fuel (escapeList s ++ '"' :: rest) = some (s, rest) := by
  induction s with
  | nil =>
    intro fuel rest hf
    obtain ⟨f, rfl⟩ : ∃ f, fuel = f + 1 := ⟨fuel - 1, by omega⟩
    rw [show escapeList [] ++ '"' :: rest = '"' :: rest from rfl, readStringBody_cons,
      if_pos rfl]
  | cons c cs ih =>
    intro fuel rest hf
    obtain ⟨f, rfl⟩ : ∃ f, fuel = f + 1 := ⟨fuel - 1, by omega⟩
    have hcs : cs.length < f := by
      simp only [List.length_cons] at hf
      omega
    have hrec := ih f rest hcs
    rw [show escapeList (c :: cs) = escapeChar c ++ escapeList cs from rfl,
      List.append_assoc]
    by_cases h1 : c = '\\'
    · subst h1
      rw [show escapeChar '\\' = ['\\', '\\'] from rfl, List.cons_append,
        List.cons_append, List.nil_append, readStringBody_cons,
        if_neg (by decide), if_pos rfl,
        show ∀ tl, decodeEscape ('\\' :: tl) = some ('\\', tl) from fun _ => rfl]; simp only [hrec]
    · by_cases h2 : c = '"'
      · subst h2
        rw [show escapeChar '"' = ['\\', '"'] by simp [escapeChar, h1],
          List.cons_append, List.cons_append, List.nil_append, readStringBody_cons,
          if_neg (by decide), if_pos rfl,
          show ∀ tl, decodeEscape ('"' :: tl) = some ('"', tl) from fun _ => rfl]; simp only [hrec]
      · by_cases h3 : c = Char.ofNat 8
        · subst h3
          rw [show escapeChar (Char.ofNat 8) = ['\\', 'b'] by
              simp [escapeChar, h1, h2],
            List.cons_append, List.cons_append, List.nil_append, readStringBody_cons,
            if_neg (by decide), if_pos rfl,
            show ∀ tl, decodeEscape ('b' :: tl) = some (Char.ofNat 8, tl) from
              fun _ => rfl]; simp only [hrec]
        · by_cases h4 : c = Char.ofNat 12
          · subst h4
            rw [show escapeChar (Char.ofNat 12) = ['\\', 'f'] by
                simp [escapeChar, h1, h2, h3],
              List.cons_append, List.cons_append, List.nil_append, readStringBody_cons,
              if_neg (by decide), if_pos rfl,
              show ∀ tl, decodeEscape ('f' :: tl) = some (Char.ofNat 12, tl) from
                fun _ => rfl]; simp only [hrec]
          · by_cases h5 : c = '\n'
            · subst h5
              rw [show escapeChar '\n' = ['\\', 'n'] by
                  simp [escapeChar, h1, h2, h3, h4],
                List.cons_append, List.cons_append, List.nil_append, readStringBody_cons,
                if_neg (by decide), if_pos rfl,
                show ∀ tl, decodeEscape ('n' :: tl) = some ('\n', tl) from
                  fun _ => rfl]; simp only [hrec]
            · by_cases h6 : c = Char.ofNat 13
              · subst h6
                rw [show escapeChar (Char.ofNat 13) = ['\\', 'r'] by
                    simp [escapeChar, h1, h2, h3, h4, h5],
                  List.cons_append, List.cons_append, List.nil_append,
                  readStringBody_cons, if_neg (by decide), if_pos rfl,
                  show ∀ tl, decodeEscape ('r' :: tl) = some (Char.ofNat 13, tl) from
                    fun _ => rfl]; simp only [hrec]
              · by_cases h7 : c = '\t'
                · subst h7
                  rw [show escapeChar '\t' = ['\\', 't'] by
                      simp [escapeChar, h1, h2, h3, h4, h5, h6],
                    List.cons_append, List.cons_append, List.nil_append,
                    readStringBody_cons, if_neg (by decide), if_pos rfl,
                    show ∀ tl, decodeEscape ('t' :: tl) = some ('\t', tl) from
                      fun _ => rfl]; simp only [hrec]
                · by_cases h8 : c.toNat < 32
                  · rw [show escapeChar c = ['\\', 'u', '0', '0',
                        hexDigit (c.toNat / 16), hexDigit (c.toNat % 16)] by
                        unfold escapeChar
                        simp [h1, h2, h3, h4, h5, h6, h7, h8],
                      List.cons_append, List.cons_append, List.cons_append,
                      List.cons_append, List.cons_append, List.cons_append,
                      List.nil_append, readStringBody_cons,
                      if_neg (by decide), if_pos rfl]
                    rw [show ∀ hx hy tl, decodeEscape ('u' :: '0' :: '0' :: hx :: hy :: tl) =
                        (match hexVal '0', hexVal '0', hexVal hx, hexVal hy with
                         | some va, some vb, some vx, some vy =>
                           some (Char.ofNat (((va * 16 + vb) * 16 + vx) * 16 + vy), tl)
                         | _, _, _, _ => none) from fun _ _ _ => rfl]
                    rw [hexVal_hexDigit (c.toNat / 16) (by omega),
                      hexVal_hexDigit (c.toNat % 16) (by omega)]
                    simp only [show hexVal '0' = some 0 from rfl]
                    rw [show ((0 * 16 + 0) * 16 + c.toNat / 16) * 16 + c.toNat % 16 =
                        c.toNat by omega, Char.ofNat_toNat]; simp only [hrec]
                  · rw [show escapeChar c = [c] by
                        unfold escapeChar
                        simp [h1, h2, h3, h4, h5, h6, h7, h8],
                      List.cons_append, List.nil_append, readStringBody_cons,
                      if_neg h2, if_neg h1]; simp only [hrec]

/-! ## C9: number round trip and scalar cases -/

/-- One-step equation of the digit reader. -/
theorem readDigits_cons (acc : Nat) (c : Char) (cs : List Char) :
    readDigits acc (c :: cs) =
      (if c.isDigit then readDigits (acc * 10 + (c.toNat - 48)) cs
       else (acc, c :: cs)) := rfl

/-- Reading digits stops at a non-digit (or the end). -/
theorem readDigits_stop (m : Nat) {rest : List Char} (h : noDigitHead rest) :
    readDigits m rest = (m, rest) := by
  cases rest with
  | nil => rfl
  | cons c cs =>
    have hc := h c rfl
    rw [readDigits_cons, if_neg (by simp [hc])]

/-- Reading the digits of `n` folds them onto the accumulator. -/
theorem readDigits_natRepr (n : Nat) :
    ∀ acc rest, readDigits acc (natRepr n ++ rest) =
      readDigits (acc * 10 ^ (natRepr n).length + n) rest := by
  induction n using Nat.strong_induction_on with
  | _ n ih =>
    intro acc rest
    by_cases h10 : n < 10
    · rw [natRepr_eq, if_pos h10, List.singleton_append, readDigits_cons,
        if_pos (decDigit_isDigit n h10), decDigit_val n h10]
      simp
    · have hdiv : n / 10 < n := Nat.div_lt_self (by omega) (by omega)
      rw [natRepr_eq, if_neg h10, List.append_assoc, List.singleton_append,
        ih (n / 10) hdiv acc (decDigit (n % 10) :: rest), readDigits_cons,
        if_pos (decDigit_isDigit (n % 10) (Nat.mod_lt _ (by omega))),
        decDigit_val (n % 10) (Nat.mod_lt _ (by omega))]
      rw [List.length_append, List.length_singleton, pow_succ, Nat.add_mul,
        Nat.mul_assoc, Nat.add_assoc, show n / 10 * 10 + n % 10 = n from by omega]

/-- A digit character is not whitespace. -/
theorem digit_not_ws {c : Char} (h : c.isDigit = true) : isWs c = false := by
  cases hw : isWs c
  · rfl
  · exfalso
    simp only [isWs, Bool.or_eq_true, decide_eq_true_eq] at hw
    rcases hw with ((rfl | rfl) | rfl) | rfl
    · exact absurd h (by decide)
    · exact absurd h (by decide)
    · exact absurd h (by decide)
    · exact absurd h (by decide)

/-- Round trip for serialized integers. -/
theorem parsesBack_int (n : Int) : ParsesBack (.int n) := by
  intro lvl fuel ws rest hc hws hrest _hwf
  have hc1 : 1 ≤ fuel := by
    rw [show valCost (Doc.int n) = 1 from rfl] at hc
    exact hc
  obtain ⟨f, rfl⟩ : ∃ f, fuel = f + 1 := ⟨fuel - 1, by omega⟩
  rw [parseVal, skipWs_append_ws hws]
  rw [show emitVal lvl (.int n) = intRepr n from rfl]
  by_cases hn : n < 0
  · rw [show intRepr n = '-' :: natRepr n.natAbs from by
      unfold intRepr
      rw [if_pos hn]]
    obtain ⟨d, ds, hrep, hdig⟩ := natRepr_shape n.natAbs
    rw [hrep, List.cons_append, skipWs_cons_not (by decide), List.cons_append]
    try dsimp only
    rw [if_neg (by decide), if_neg (by decide), if_neg (by decide), if_neg (by decide),
      if_neg (by decide), if_neg (by decide), if_pos rfl]
    try dsimp only
    rw [if_pos hdig]
    have hrd : readDigits (d.toNat - 48) (ds ++ rest) = (n.natAbs, rest) := by
      have h0 : readDigits 0 (natRepr n.natAbs ++ rest) = (n.natAbs, rest) := by
        rw [readDigits_natRepr]
        simp only [Nat.zero_mul, Nat.zero_add]
        exact readDigits_stop _ hrest
      rw [hrep, List.cons_append, readDigits_cons, if_pos hdig] at h0
      simpa using h0
    rw [hrd]
    dsimp only
    rw [show (-(n.natAbs : Int)) = n from by omega]
  · rw [show intRepr n = natRepr n.toNat from by
      unfold intRepr
      rw [if_neg hn]]
    obtain ⟨d, ds, hrep, hdig⟩ := natRepr_shape n.toNat
    have hne : ∀ x : Char, x.isDigit = false → ¬(d = x) := by
      intro x hx he
      rw [he] at hdig
      rw [hdig] at hx
      cases hx
    rw [hrep, List.cons_append, skipWs_cons_not (digit_not_ws hdig)]
    dsimp only
    rw [if_neg (hne '\x7b' (by decide)), if_neg (hne '[' (by decide)),
      if_neg (hne '"' (by decide)), if_neg (hne 't' (by decide)),
      if_neg (hne 'f' (by decide)), if_neg (hne 'n' (by decide)),
      if_neg (hne '-' (by decide)), if_pos hdig]
    have hrd : readDigits (d.toNat - 48) (ds ++ rest) = (n.toNat, rest) := by
      have h0 : readDigits 0 (natRepr n.toNat ++ rest) = (n.toNat, rest) := by
        rw [readDigits_natRepr]
        simp only [Nat.zero_mul, Nat.zero_add]
        exact readDigits_stop _ hrest
      rw [hrep, List.cons_append, readDigits_cons, if_pos hdig] at h0
      simpa using h0
    rw [hrd]
    dsimp only
    rw [show ((n.toNat : Int)) = n from by omega]

/-- Round trip for `null`. -/
theorem parsesBack_null : ParsesBack .null := by
  intro lvl fuel ws rest hc hws hrest _h
  have hc1 : 1 ≤ fuel := by
    rw [show valCost Doc.null = 1 from rfl] at hc
    exact hc
  obtain ⟨f, rfl⟩ : ∃ f, fuel = f + 1 := ⟨fuel - 1, by omega⟩
  rw [parseVal, skipWs_ws_emit hws lvl .null rest,
    show emitVal lvl Doc.null ++ rest = 'n' :: 'u' :: 'l' :: 'l' :: rest from rfl]
  dsimp only
  rw [if_neg (by decide), if_neg (by decide), if_neg (by decide), if_neg (by decide),
    if_neg (by decide), if_pos rfl]
  rfl

/-- Round trip for booleans. -/
theorem parsesBack_bool (b : Bool) : ParsesBack (.bool b) := by
  intro lvl fuel ws rest hc hws hrest _h
  have hc1 : 1 ≤ fuel := by
    rw [show valCost (Doc.bool b) = 1 from rfl] at hc
    exact hc
  obtain ⟨f, rfl⟩ : ∃ f, fuel = f + 1 := ⟨fuel - 1, by omega⟩
  cases b with
  | true =>
    rw [parseVal, skipWs_ws_emit hws lvl (.bool true) rest,
      show emitVal lvl (Doc.bool true) ++ rest = 't' :: 'r' :: 'u' :: 'e' :: rest from rfl]
    dsimp only
    rw [if_neg (by decide), if_neg (by decide), if_neg (by decide), if_pos rfl]
    rfl
  | false =>
    rw [parseVal, skipWs_ws_emit hws lvl (.bool false) rest,
      show emitVal lvl (Doc.bool false) ++ rest =
        'f' :: 'a' :: 'l' :: 's' :: 'e' :: rest from rfl]
    dsimp only
    rw [if_neg (by decide), if_neg (by decide), if_neg (by decide), if_neg (by decide),
      if_pos rfl]
    rfl

/-- Round trip for strings. -/
theorem parsesBack_str (s : String) : ParsesBack (.str s) := by
  intro lvl fuel ws rest hc hws hrest _h
  have hc1 : 1 ≤ fuel := by
    rw [show valCost (Doc.str s) = 1 from rfl] at hc
    exact hc
  obtain ⟨f, rfl⟩ : ∃ f, fuel = f + 1 := ⟨fuel - 1, by omega⟩
  rw [parseVal, skipWs_ws_emit hws lvl (.str s) rest,
    show emitVal lvl (Doc.str s) ++ rest =
      '"' :: ((escapeList s.data ++ ['"']) ++ rest) from rfl]
  dsimp only
  rw [if_neg (by decide), if_neg (by decide), if_pos rfl,
    show (escapeList s.data ++ ['"']) ++ rest = escapeList s.data ++ '"' :: rest from
      by simp]
  rw [readStringBody_escape s.data _ rest (by
    have := escapeList_length_ge s.data
    rw [List.length_append]
    omega)]

/-! ## C9: container round trip -/

/-- A fresh key is appended by the dict insertion. -/
theorem dictInsert_fresh {acc : List (String × Doc)} {k : String} (v : Doc)
    (h : k ∉ acc.map Prod.fst) : dictInsert acc k v = acc ++ [(k, v)] := by
  induction acc with
  | nil => rfl
  | cons kv rest ih =>
    obtain ⟨k0, v0⟩ := kv
    rw [dictInsert]
    have hk0 : ¬(k0 = k) := by
      intro he
      exact h (by simp [he])
    rw [if_neg hk0, ih (fun hm => h (by simp [hm]))]
    rfl

/-- The boolean key-distinctness check implies `Nodup`. -/
theorem nodupKeysB_nodup {l : List String} (h : nodupKeysB l = true) : l.Nodup := by
  induction l with
  | nil => exact List.nodup_nil
  | cons k ks ih =>
    rw [nodupKeysB, Bool.and_eq_true] at h
    refine List.nodup_cons.2 ⟨?_, ih h.2⟩
    intro hm
    have := h.1
    rw [Bool.not_eq_true'] at this
    rw [show ks.contains k = true by
      simp [List.contains_eq_any_beq, List.any_eq_true, beq_iff_eq]
      exact hm] at this
    cases this

/-- A list headed by a non-digit has no digit head. -/
theorem noDigitHead_cons {c : Char} (h : c.isDigit = false) (l : List Char) :
    noDigitHead (c :: l) := by
  intro c' hc'
  rw [show (c :: l).head? = some c from rfl] at hc'
  cases hc'
  exact h

/-- The empty continuation has no digit head. -/
theorem noDigitHead_nil : noDigitHead ([] : List Char) := by
  intro c hc
  cases hc

/-- A single blank is whitespace. -/
theorem allWs_single : allWs [' '] := by
  intro c hc
  rw [List.mem_singleton.1 hc]
  rfl

/-- In a key-distinct concatenation the middle key is fresh for the
accumulator. -/
theorem nodup_head_fresh {acc rest : List (String × Doc)} {k : String} {v : Doc}
    (h : ((acc ++ (k, v) :: rest).map Prod.fst).Nodup) : k ∉ acc.map Prod.fst := by
  intro hm
  rw [List.map_append] at h
  exact (List.nodup_append.1 h).2.2 hm (by simp)

/-- Parsing the serialized members of a non-empty object accumulates
them in order. -/
theorem parseMembers_emit (lvl : Nat) (pending : List (String × Doc)) :
    ∀ (k : String) (v : Doc) (acc : List (String × Doc)) (fuel : Nat)
      (ws rest : List Char),
      ParsesBack v →
      (∀ p ∈ pending, ParsesBack p.2) →
      msCost ((k, v) :: pending) ≤ fuel →
      allWs ws →
      wfDoc v = true →
      wfEntries pending = true →
      ((acc ++ (k, v) :: pending).map Prod.fst).Nodup →
      parseMembers fuel
        (ws ++ ('"' :: (escapeList k.data ++ '"' :: ':' :: ' ' ::
          (emitVal (lvl + 1) v ++
            (emitEntries (lvl + 1) pending ++ (nlIndent lvl ++ '\x7d' :: rest)))))) acc =
      some (.obj (acc ++ (k, v) :: pending), rest) := by
  induction pending with
  | nil =>
    intro k v acc fuel ws rest hPBv _hPB hcost hws hwv _hwp hnd
    have hc1 : 1 ≤ fuel ∧ valCost v ≤ fuel - 1 := by
      rw [show msCost [(k, v)] = 1 + max (valCost v) 0 from rfl] at hcost
      omega
    obtain ⟨f, rfl⟩ : ∃ f, fuel = f + 1 := ⟨fuel - 1, by omega⟩
    rw [show emitEntries (lvl + 1) ([] : List (String × Doc)) = [] from rfl,
      List.nil_append]
    rw [parseMembers, skipWs_append_ws hws, skipWs_cons_not (by decide)]
    dsimp only
    rw [if_pos rfl]
    rw [readStringBody_escape k.data _ _ (by
      have := escapeList_length_ge k.data
      rw [List.length_append]
      omega)]
    dsimp only
    rw [show String.mk k.data = k from rfl]
    rw [skipWs_cons_not (by decide)]
    dsimp only
    rw [if_pos rfl]
    have hnd1 : noDigitHead (nlIndent lvl ++ '\x7d' :: rest) := by
      rw [nlIndent, List.cons_append]
      exact noDigitHead_cons (by decide) _
    have hv := hPBv (lvl + 1) f [' '] (nlIndent lvl ++ '\x7d' :: rest)
      (by omega) allWs_single hnd1 hwv
    simp only [List.cons_append, List.nil_append] at hv
    rw [hv]
    dsimp only
    rw [skipWs_append_ws (allWs_nlIndent lvl), skipWs_cons_not (by decide)]
    dsimp only
    rw [if_neg (by decide), if_pos rfl,
      dictInsert_fresh v (nodup_head_fresh hnd)]
  | cons q qs ih =>
    obtain ⟨k2, v2⟩ := q
    intro k v acc fuel ws rest hPBv hPB hcost hws hwv hwp hnd
    have hc1 : 1 ≤ fuel ∧ valCost v ≤ fuel - 1 ∧
        msCost ((k2, v2) :: qs) ≤ fuel - 1 := by
      rw [show msCost ((k, v) :: (k2, v2) :: qs) =
        1 + max (valCost v) (msCost ((k2, v2) :: qs)) from rfl] at hcost
      omega
    obtain ⟨f, rfl⟩ : ∃ f, fuel = f + 1 := ⟨fuel - 1, by omega⟩
    rw [show emitEntries (lvl + 1) ((k2, v2) :: qs) =
      ',' :: (nlIndent (lvl + 1) ++ emitEntry (lvl + 1) (k2, v2) ++
        emitEntries (lvl + 1) qs) from rfl]
    simp only [List.cons_append, List.append_assoc]
    rw [parseMembers, skipWs_append_ws hws, skipWs_cons_not (by decide)]
    dsimp only
    rw [if_pos rfl]
    rw [readStringBody_escape k.data _ _ (by
      have := escapeList_length_ge k.data
      rw [List.length_append]
      omega)]
    dsimp only
    rw [show String.mk k.data = k from rfl]
    rw [skipWs_cons_not (by decide)]
    dsimp only
    rw [if_pos rfl]
    have hv := hPBv (lvl + 1) f [' ']
      (',' :: (nlIndent (lvl + 1) ++ (emitEntry (lvl + 1) (k2, v2) ++
        (emitEntries (lvl + 1) qs ++ (nlIndent lvl ++ '\x7d' :: rest)))))
      (by omega) allWs_single (noDigitHead_cons (by decide) _) hwv
    simp only [List.cons_append, List.nil_append] at hv
    rw [hv]
    dsimp only
    rw [skipWs_cons_not (by decide)]
    dsimp only
    rw [if_pos rfl, dictInsert_fresh v (nodup_head_fresh hnd)]
    rw [show nlIndent (lvl + 1) ++ (emitEntry (lvl + 1) (k2, v2) ++
        (emitEntries (lvl + 1) qs ++ (nlIndent lvl ++ '\x7d' :: rest))) =
      nlIndent (lvl + 1) ++ ('"' :: (escapeList k2.data ++ '"' :: ':' :: ' ' ::
        (emitVal (lvl + 1) v2 ++
          (emitEntries (lvl + 1) qs ++ (nlIndent lvl ++ '\x7d' :: rest))))) from by
      simp [emitEntry, jsonStringData]]
    have hwp2 : wfDoc v2 = true ∧ wfEntries qs = true := by
      rw [wfEntries, Bool.and_eq_true] at hwp
      exact hwp
    have hnd2 : (((acc ++ [(k, v)]) ++ (k2, v2) :: qs).map Prod.fst).Nodup := by
      simp only [List.append_assoc, List.cons_append, List.nil_append]
      exact hnd
    rw [ih k2 v2 (acc ++ [(k, v)]) f (nlIndent (lvl + 1)) rest
      (hPB (k2, v2) (List.mem_cons_self _ _))
      (fun p hp => hPB p (List.mem_cons_of_mem _ hp))
      (by omega) (allWs_nlIndent _) hwp2.1 hwp2.2 hnd2]
    simp

/-- Parsing the serialized items of a non-empty array accumulates them
in order. -/
theorem parseItems_emit (lvl : Nat) (pending : List Doc) :
    ∀ (x : Doc) (acc : List Doc) (fuel : Nat) (ws rest : List Char),
      ParsesBack x →
      (∀ y ∈ pending, ParsesBack y) →
      itemsCost (x :: pending) ≤ fuel →
      allWs ws →
      wfDoc x = true →
      wfItems pending = true →
      parseItems fuel
        (ws ++ (emitVal (lvl + 1) x ++
          (emitItems (lvl + 1) pending ++ (nlIndent lvl ++ ']' :: rest)))) acc =
      some (.arr (acc ++ x :: pending), rest) := by
  induction pending with
  | nil =>
    intro x acc fuel ws rest hPBx _hPB hcost hws hwx _hwp
    have hc1 : 1 ≤ fuel ∧ valCost x ≤ fuel - 1 := by
      rw [show itemsCost [x] = 1 + max (valCost x) 0 from rfl] at hcost
      omega
    obtain ⟨f, rfl⟩ : ∃ f, fuel = f + 1 := ⟨fuel - 1, by omega⟩
    rw [show emitItems (lvl + 1) ([] : List Doc) = [] from rfl, List.nil_append]
    rw [parseItems]
    have hnd : noDigitHead (nlIndent lvl ++ ']' :: rest) := by
      rw [nlIndent, List.cons_append]
      exact noDigitHead_cons (by decide) _
    rw [hPBx (lvl + 1) f ws (nlIndent lvl ++ ']' :: rest) (by omega) hws hnd hwx]
    dsimp only
    rw [skipWs_append_ws (allWs_nlIndent lvl), skipWs_cons_not (by decide)]
    dsimp only
    rw [if_neg (by decide), if_pos rfl]
  | cons y ys ih =>
    intro x acc fuel ws rest hPBx hPB hcost hws hwx hwp
    have hc1 : 1 ≤ fuel ∧ valCost x ≤ fuel - 1 ∧ itemsCost (y :: ys) ≤ fuel - 1 := by
      rw [show itemsCost (x :: y :: ys) =
        1 + max (valCost x) (itemsCost (y :: ys)) from rfl] at hcost
      omega
    obtain ⟨f, rfl⟩ : ∃ f, fuel = f + 1 := ⟨fuel - 1, by omega⟩
    rw [show emitItems (lvl + 1) (y :: ys) =
      ',' :: (nlIndent (lvl + 1) ++ emitVal (lvl + 1) y ++ emitItems (lvl + 1) ys)
      from rfl]
    simp only [List.cons_append, List.append_assoc]
    rw [parseItems]
    have hwy : wfDoc y = true := by
      rw [wfItems, Bool.and_eq_true] at hwp
      exact hwp.1
    have hwys : wfItems ys = true := by
      rw [wfItems, Bool.and_eq_true] at hwp
      exact hwp.2
    rw [hPBx (lvl + 1) f ws
      (',' :: (nlIndent (lvl + 1) ++ (emitVal (lvl + 1) y ++
        (emitItems (lvl + 1) ys ++ (nlIndent lvl ++ ']' :: rest)))))
      (by omega) hws (noDigitHead_cons (by decide) _) hwx]
    dsimp only
    rw [skipWs_cons_not (by decide)]
    dsimp only
    rw [if_pos rfl]
    rw [ih y (acc ++ [x]) f (nlIndent (lvl + 1)) rest
      (hPB y (List.mem_cons_self y ys))
      (fun z hz => hPB z (List.mem_cons_of_mem _ hz))
      (by omega) (allWs_nlIndent _) hwy hwys]
    simp

/-- The empty list is all-whitespace. -/
theorem allWs_nil : allWs [] := fun c hc => absurd hc (List.not_mem_nil c)

/-- The items fuel bound is below the emitted items length. -/
theorem itemsCost_le (lvl : Nat) (xs : List Doc)
    (h : ∀ x ∈ xs, ∀ l, valCost x ≤ (emitVal l x).length) :
    itemsCost xs ≤ (emitItems lvl xs).length := by
  induction xs with
  | nil =>
    rw [show itemsCost [] = 0 from rfl]
    omega
  | cons x xs ih =>
    have h1 := h x (List.mem_cons_self x xs) lvl
    have h2 := ih (fun y hy l => h y (List.mem_cons_of_mem _ hy) l)
    rw [show itemsCost (x :: xs) = 1 + max (valCost x) (itemsCost xs) from rfl,
      show emitItems lvl (x :: xs) =
        ',' :: (nlIndent lvl ++ emitVal lvl x ++ emitItems lvl xs) from rfl]
    simp only [List.length_cons, List.length_append]
    omega

/-- The members fuel bound is below the emitted members length. -/
theorem msCost_le (lvl : Nat) (kvs : List (String × Doc))
    (h : ∀ p ∈ kvs, ∀ l, valCost p.2 ≤ (emitVal l p.2).length) :
    msCost kvs ≤ (emitEntries lvl kvs).length := by
  induction kvs with
  | nil =>
    rw [show msCost [] = 0 from rfl]
    omega
  | cons kv kvs ih =>
    obtain ⟨k, v⟩ := kv
    have h1 : valCost v ≤ (emitVal lvl v).length := h (k, v) (List.mem_cons_self _ kvs) lvl
    have h2 := ih (fun p hp l => h p (List.mem_cons_of_mem _ hp) l)
    rw [show msCost ((k, v) :: kvs) = 1 + max (valCost v) (msCost kvs) from rfl,
      show emitEntries lvl ((k, v) :: kvs) =
        ',' :: (nlIndent lvl ++ emitEntry lvl (k, v) ++ emitEntries lvl kvs) from rfl,
      show emitEntry lvl (k, v) =
        jsonStringData k ++ ':' :: ' ' :: emitVal lvl v from rfl]
    simp only [List.length_cons, List.length_append]
    omega

/-- The fuel bound of a value is below its emitted length. -/
theorem valCost_le_length : ∀ d, ∀ lvl, valCost d ≤ (emitVal lvl d).length := by
  refine doc_induction (fun d => ∀ lvl, valCost d ≤ (emitVal lvl d).length)
    ?_ ?_ ?_ ?_ ?_ ?_
  · intro s lvl
    rw [show valCost (.str s) = 1 from rfl,
      show emitVal lvl (.str s) = '"' :: (escapeList s.data ++ ['"']) from rfl]
    simp
  · intro n lvl
    rw [show valCost (.int n) = 1 from rfl,
      show emitVal lvl (.int n) = intRepr n from rfl, intRepr]
    split
    · simp
    · exact List.length_pos.2 (natRepr_ne_nil _)
  · intro b lvl
    cases b
    · rw [show valCost (.bool false) = 1 from rfl,
        show emitVal lvl (.bool false) = ['f', 'a', 'l', 's', 'e'] from rfl]
      decide
    · rw [show valCost (.bool true) = 1 from rfl,
        show emitVal lvl (.bool true) = ['t', 'r', 'u', 'e'] from rfl]
      decide
  · intro lvl
    rw [show valCost .null = 1 from rfl,
      show emitVal lvl .null = ['n', 'u', 'l', 'l'] from rfl]
    decide
  · intro xs hm lvl
    cases xs with
    | nil =>
      rw [show valCost (.arr []) = 1 from rfl,
        show emitVal lvl (.arr ([] : List Doc)) = ['[', ']'] from rfl]
      decide
    | cons x xs =>
      have h1 := hm x (List.mem_cons_self x xs) (lvl + 1)
      have h2 := itemsCost_le (lvl + 1) xs
        (fun y hy l => hm y (List.mem_cons_of_mem _ hy) l)
      rw [show valCost (.arr (x :: xs)) = 1 + itemsCost (x :: xs) from rfl,
        show itemsCost (x :: xs) = 1 + max (valCost x) (itemsCost xs) from rfl,
        show emitVal lvl (.arr (x :: xs)) =
          '[' :: (nlIndent (lvl + 1) ++ emitVal (lvl + 1) x ++
            emitItems (lvl + 1) xs ++ nlIndent lvl ++ [']']) from rfl]
      simp only [List.length_cons, List.length_append]
      omega
  · intro kvs hm lvl
    cases kvs with
    | nil =>
      rw [show valCost (.obj []) = 1 from rfl,
        show emitVal lvl (.obj ([] : List (String × Doc))) = ['\x7b', '\x7d'] from rfl]
      decide
    | cons kv kvs =>
      obtain ⟨k, v⟩ := kv
      have h1 : valCost v ≤ (emitVal (lvl + 1) v).length :=
        hm (k, v) (List.mem_cons_self _ kvs) (lvl + 1)
      have h2 := msCost_le (lvl + 1) kvs
        (fun p hp l => hm p (List.mem_cons_of_mem _ hp) l)
      rw [show valCost (.obj ((k, v) :: kvs)) = 1 + msCost ((k, v) :: kvs) from rfl,
        show msCost ((k, v) :: kvs) = 1 + max (valCost v) (msCost kvs) from rfl,
        show emitVal lvl (.obj ((k, v) :: kvs)) =
          '\x7b' :: (nlIndent (lvl + 1) ++ emitEntry (lvl + 1) (k, v) ++
            emitEntries (lvl + 1) kvs ++ nlIndent lvl ++ ['\x7d']) from rfl,
        show emitEntry (lvl + 1) (k, v) =
          jsonStringData k ++ ':' :: ' ' :: emitVal (lvl + 1) v from rfl]
      simp only [List.length_cons, List.length_append]
      omega

/-- Every well-formed document parses back from its emission, in any
whitespace/continuation context. -/
theorem parsesBack_all : ∀ d, ParsesBack d := by
  refine doc_induction ParsesBack parsesBack_str parsesBack_int parsesBack_bool
    parsesBack_null ?_ ?_
  · intro xs hm
    cases xs with
    | nil =>
      intro lvl fuel ws rest hc hws _hrest _hwf
      have hc1 : 1 ≤ fuel := by
        rw [show valCost (.arr []) = 1 from rfl] at hc
        exact hc
      obtain ⟨f, rfl⟩ : ∃ f, fuel = f + 1 := ⟨fuel - 1, by omega⟩
      rw [show emitVal lvl (.arr ([] : List Doc)) = ['[', ']'] from rfl]
      simp only [List.cons_append, List.nil_append]
      rw [parseVal, skipWs_append_ws hws, skipWs_cons_not (by decide)]
      dsimp only
      rw [if_neg (by decide), if_pos rfl, skipWs_cons_not (by decide)]
      dsimp only
      rw [if_pos rfl]
    | cons x xs =>
      intro lvl fuel ws rest hc hws _hrest hwf
      have hc1 : 1 ≤ fuel ∧ itemsCost (x :: xs) ≤ fuel - 1 := by
        rw [show valCost (.arr (x :: xs)) = 1 + itemsCost (x :: xs) from rfl] at hc
        omega
      obtain ⟨f, rfl⟩ : ∃ f, fuel = f + 1 := ⟨fuel - 1, by omega⟩
      rw [show emitVal lvl (.arr (x :: xs)) =
        '[' :: (nlIndent (lvl + 1) ++ emitVal (lvl + 1) x ++
          emitItems (lvl + 1) xs ++ nlIndent lvl ++ [']']) from rfl]
      simp only [List.cons_append, List.append_assoc, List.nil_append]
      rw [parseVal, skipWs_append_ws hws, skipWs_cons_not (by decide)]
      dsimp only
      rw [if_neg (by decide), if_pos rfl,
        skipWs_ws_emit (allWs_nlIndent (lvl + 1)) (lvl + 1) x
          (emitItems (lvl + 1) xs ++ (nlIndent lvl ++ ']' :: rest))]
      obtain ⟨c, cs, hrep, _hws2, hne1, _hne2⟩ := emit_head (lvl + 1) x
      rw [hrep, List.cons_append]
      dsimp only
      rw [if_neg hne1,
        show c :: (cs ++ (emitItems (lvl + 1) xs ++ (nlIndent lvl ++ ']' :: rest))) =
          emitVal (lvl + 1) x ++
            (emitItems (lvl + 1) xs ++ (nlIndent lvl ++ ']' :: rest)) from by
          rw [hrep, List.cons_append]]
      have hwx : wfDoc x = true ∧ wfItems xs = true := by
        rw [show wfDoc (.arr (x :: xs)) = wfItems (x :: xs) from rfl, wfItems,
          Bool.and_eq_true] at hwf
        exact hwf
      have hI := parseItems_emit lvl xs x [] f [] rest
        (hm x (List.mem_cons_self _ _))
        (fun y hy => hm y (List.mem_cons_of_mem _ hy))
        (by omega) allWs_nil hwx.1 hwx.2
      simp only [List.nil_append] at hI
      rw [hI]
  · intro kvs hm
    cases kvs with
    | nil =>
      intro lvl fuel ws rest hc hws _hrest _hwf
      have hc1 : 1 ≤ fuel := by
        rw [show valCost (.obj []) = 1 from rfl] at hc
        exact hc
      obtain ⟨f, rfl⟩ : ∃ f, fuel = f + 1 := ⟨fuel - 1, by omega⟩
      rw [show emitVal lvl (.obj ([] : List (String × Doc))) = ['\x7b', '\x7d'] from rfl]
      simp only [List.cons_append, List.nil_append]
      rw [parseVal, skipWs_append_ws hws, skipWs_cons_not (by decide)]
      dsimp only
      rw [if_pos rfl, skipWs_cons_not (by decide)]
      dsimp only
      rw [if_pos rfl]
    | cons kv kvs =>
      obtain ⟨k, v⟩ := kv
      intro lvl fuel ws rest hc hws _hrest hwf
      have hc1 : 1 ≤ fuel ∧ msCost ((k, v) :: kvs) ≤ fuel - 1 := by
        rw [show valCost (.obj ((k, v) :: kvs)) =
          1 + msCost ((k, v) :: kvs) from rfl] at hc
        omega
      obtain ⟨f, rfl⟩ : ∃ f, fuel = f + 1 := ⟨fuel - 1, by omega⟩
      rw [show emitVal lvl (.obj ((k, v) :: kvs)) =
        '\x7b' :: (nlIndent (lvl + 1) ++ emitEntry (lvl + 1) (k, v) ++
          emitEntries (lvl + 1) kvs ++ nlIndent lvl ++ ['\x7d']) from rfl]
      simp only [List.cons_append, List.append_assoc, List.nil_append]
      rw [parseVal, skipWs_append_ws hws, skipWs_cons_not (by decide)]
      dsimp only
      rw [if_pos rfl,
        show emitEntry (lvl + 1) (k, v) ++
            (emitEntries (lvl + 1) kvs ++ (nlIndent lvl ++ '\x7d' :: rest)) =
          '"' :: (escapeList k.data ++ '"' :: ':' :: ' ' ::
            (emitVal (lvl + 1) v ++
              (emitEntries (lvl + 1) kvs ++ (nlIndent lvl ++ '\x7d' :: rest)))) from by
          simp [emitEntry, jsonStringData]]
      rw [skipWs_append_ws (allWs_nlIndent (lvl + 1)), skipWs_cons_not (by decide)]
      dsimp only
      rw [if_neg (by decide)]
      have hwf' : nodupKeysB (((k, v) :: kvs).map Prod.fst) = true ∧
          wfDoc v = true ∧ wfEntries kvs = true := by
        rw [wfDoc, Bool.and_eq_true, wfEntries, Bool.and_eq_true] at hwf
        exact ⟨hwf.1, hwf.2.1, hwf.2.2⟩
      have hM := parseMembers_emit lvl kvs k v [] f [] rest
        (hm (k, v) (List.mem_cons_self _ _))
        (fun p hp => hm p (List.mem_cons_of_mem _ hp))
        (by omega) allWs_nil hwf'.2.1 hwf'.2.2 (nodupKeysB_nodup hwf'.1)
      simp only [List.nil_append] at hM
      rw [hM]

/-- **C9 counterexample**: a document carrying the float scalar 1e25
does not round-trip. `json.dump` writes the repr text `1e+25` (the
stdlib encoder formats a float with `float.__repr__`, which uses a
dotless exponent form for every magnitude of 1e16 and above), and the
YAML resolver of the loader, whose float form demands a decimal dot,
re-reads that token as the *string* `"1e+25"` — the reloaded tree
differs from the original at that scalar. -/
theorem c9_counterexample :
    loadJsonF (emitF (.obj [("openapi", .str "3.0.0"),
        ("big", .float "1e+25".data)])) =
      some (.obj [("openapi", .str "3.0.0"), ("big", .str "1e+25")]) ∧
    DocF.obj [("openapi", .str "3.0.0"), ("big", .str "1e+25")] ≠
      DocF.obj [("openapi", .str "3.0.0"), ("big", .float "1e+25".data)] := by
  refine ⟨rfl, ?_⟩
  intro h
  injection h with h1
  injection h1 with _ h2
  injection h2 with h3 _
  injection h3 with _ h4
  exact DocF.noConfusion h4

/-- **C9** (amended): round trip on the float-free fragment of the data
model. For every document tree whose scalars are strings, integer
numbers, booleans and null — no floats — and whose mappings have
pairwise-distinct string keys (the Python-dict invariant, which is what
`wfDoc` states), emitting it with the Emitter and re-loading the
emission with the Loader yields a tree equal to the original,
preserving key order, scalar values, and nesting. (With floats the
round trip fails: see the counterexample above.) -/
theorem c9_round_trip (d : Doc) (h : wfDoc d = true) : loadJson (emit d) = some d := by
  rw [loadJson, show (emit d).data = emitVal 0 d from rfl]
  have hp := parsesBack_all d 0 ((emitVal 0 d).length + 1) [] []
    (by have := valCost_le_length d 0; omega) allWs_nil noDigitHead_nil h
  simp only [List.nil_append, List.append_nil] at hp
  rw [hp]
  rfl

/-- **C9 witness.** The round trip evaluated on a concrete nested
document. -/
theorem c9_witness :
    wfDoc (Doc.obj [("openapi", .str "3.0.1"),
      ("info", .obj [("title", .str "Zé API"), ("version", .str "1.0")]),
      ("paths", .obj []),
      ("arr", .arr [.int 12, .int (-3), .bool true, .null,
        .arr [.str "a\"b\n"]])]) = true ∧
    loadJson (emit (Doc.obj [("openapi", .str "3.0.1"),
      ("info", .obj [("title", .str "Zé API"), ("version", .str "1.0")]),
      ("paths", .obj []),
      ("arr", .arr [.int 12, .int (-3), .bool true, .null,
        .arr [.str "a\"b\n"]])])) =
      some (Doc.obj [("openapi", .str "3.0.1"),
        ("info", .obj [("title", .str "Zé API"), ("version", .str "1.0")]),
        ("paths", .obj []),
        ("arr", .arr [.int 12, .int (-3), .bool true, .null,
          .arr [.str "a\"b\n"]])]) :=
  ⟨rfl, c9_round_trip _ rfl⟩

end OpenApiDocs
